import Mathlib

/-!
Verification of the span-duration recorder and timeline plot engine of
`tracing-durations-export` against its natural-language specification.

The development shallowly embeds the two source files:
* `src/plot.rs` — the filter / merge / lane-assignment / geometry pipeline,
* `src/lib.rs`  — the `tracing` layer (recorder), the ndjson serialization
  and the shutdown drop guard.

Time values (`std::time::Duration`) are modelled as nanosecond counts
(`Nat`).  The Rust hash maps (`FxHashMap`, `HashMap`) are modelled as
association lists with `HashMap::insert` semantics (`ainsert` overwrites an
existing key in place and appends a fresh key); key-iteration order of a
Rust hash map is unspecified, and no claim below depends on it.  Operations
that can panic in Rust (`map[key]` indexing, `Result::unwrap`) are modelled
with `Option` / an explicit `panicked` result.
-/

/-- Span record as read by the plot engine (`OwnedSpanInfo`, plot.rs lines
14-24).  The borrowed `SpanInfo` of lib.rs lines 77-85 has the same fields
in the same declaration order, so one structure embeds both. -/
structure OwnedSpanInfo where
  id : Nat
  name : String
  start : Nat
  «end» : Nat
  parents : Option (List Nat)
  is_main_thread : Bool
  fields : Option (List (String × String))
  deriving DecidableEq, Repr

/-- Seconds, as a rational: `(end - start).as_secs_f32()` (plot.rs lines
27-30); the source computes an `f32`, modelled here exactly in `ℚ`. -/
def OwnedSpanInfo.secs (s : OwnedSpanInfo) : ℚ :=
  ((s.«end» - s.start : ℕ) : ℚ) / 1000000000

/-- Seconds of a nanosecond duration as a rational (`as_secs_f32`). -/
def secsQ (d : Nat) : ℚ := (d : ℚ) / 1000000000

/-- `PlotConfig` (plot.rs lines 33-52). -/
structure PlotConfig where
  multi_lane : Bool
  min_length : Option Nat
  remove : Option (List String)
  inline_field : Bool
  color_top_blocking : String
  color_top_threadpool : String
  color_bottom : String
  deriving DecidableEq, Repr

/-- `PlotConfig::default` (plot.rs lines 54-67). -/
def defaultPlotConfig : PlotConfig :=
  { multi_lane := false
    min_length := none
    remove := none
    inline_field := false
    color_top_blocking := "#E69F0088"
    color_top_threadpool := "#009E7388"
    color_bottom := "#56B4E988" }

/-- `PlotLayout` (plot.rs lines 70-90). -/
structure PlotLayout where
  padding_top : Nat
  padding_bottom : Nat
  padding_left : Nat
  padding_right : Nat
  text_col_width : Nat
  content_col_width : Nat
  bar_height : Nat
  multi_lane_padding : Nat
  section_padding_height : Nat
  deriving DecidableEq, Repr

/-- `PlotLayout::default` (plot.rs lines 92-106). -/
def defaultPlotLayout : PlotLayout :=
  { padding_top := 5
    padding_bottom := 5
    padding_left := 5
    padding_right := 5
    text_col_width := 250
    content_col_width := 850
    bar_height := 20
    multi_lane_padding := 1
    section_padding_height := 10 }

/-- Hash-map lookup on the association-list model. -/
def alookup {α β : Type} [DecidableEq α] (k : α) : List (α × β) → Option β
  | [] => none
  | (k₂, v) :: rest => if k₂ = k then some v else alookup k rest

/-- `HashMap::insert`: overwrite an existing key in place, append a fresh
key at the end. -/
def ainsert {α β : Type} [DecidableEq α] (k : α) (v : β) :
    List (α × β) → List (α × β)
  | [] => [(k, v)]
  | (k₂, v₂) :: rest =>
      if k₂ = k then (k, v) :: rest else (k₂, v₂) :: ainsert k v rest

theorem alookup_ainsert_self {α β : Type} [DecidableEq α] (k : α) (v : β)
    (m : List (α × β)) : alookup k (ainsert k v m) = some v := by
  induction m with
  | nil => simp [alookup, ainsert]
  | cons hd tl ih =>
      obtain ⟨k₂, v₂⟩ := hd
      by_cases h : k₂ = k <;> simp [alookup, ainsert, h, ih]

theorem alookup_ainsert_ne {α β : Type} [DecidableEq α] {k k' : α} (v : β)
    (m : List (α × β)) (h : k' ≠ k) :
    alookup k' (ainsert k v m) = alookup k' m := by
  have hk : ¬ k = k' := fun hh => h hh.symm
  induction m with
  | nil =>
      simp only [ainsert, alookup]
      exact if_neg hk
  | cons hd tl ih =>
      obtain ⟨k₂, v₂⟩ := hd
      by_cases h₂ : k₂ = k
      · subst h₂
        simp only [ainsert, if_pos rfl, alookup]
        rw [if_neg hk, if_neg hk]
      · simp only [ainsert, if_neg h₂, alookup]
        by_cases h₃ : k₂ = k' <;> simp [h₃, ih]

theorem alookup_ainsert {α β : Type} [DecidableEq α] (k k' : α) (v : β)
    (m : List (α × β)) :
    alookup k' (ainsert k v m) =
      if k' = k then some v else alookup k' m := by
  by_cases h : k' = k
  · subst h; simp [alookup_ainsert_self]
  · simp [h, alookup_ainsert_ne v m h]

/-- The keys of `ainsert k v m` when `k` is already bound. -/
theorem ainsert_keys_of_mem {α β : Type} [DecidableEq α] {k : α} (v : β)
    {m : List (α × β)} (h : (alookup k m).isSome) :
    (ainsert k v m).map Prod.fst = m.map Prod.fst := by
  induction m with
  | nil => simp [alookup] at h
  | cons hd tl ih =>
      obtain ⟨k₂, v₂⟩ := hd
      by_cases h₂ : k₂ = k
      · simp [ainsert, h₂]
      · simp only [alookup, if_neg h₂] at h
        simp [ainsert, h₂, ih h]

/-- The keys of `ainsert k v m` when `k` is fresh. -/
theorem ainsert_keys_of_not_mem {α β : Type} [DecidableEq α] {k : α} (v : β)
    {m : List (α × β)} (h : alookup k m = none) :
    (ainsert k v m).map Prod.fst = m.map Prod.fst ++ [k] := by
  induction m with
  | nil => simp [ainsert]
  | cons hd tl ih =>
      obtain ⟨k₂, v₂⟩ := hd
      by_cases h₂ : k₂ = k
      · simp [alookup, h₂] at h
      · simp only [alookup, if_neg h₂] at h
        simp [ainsert, h₂, ih h]

theorem alookup_isSome_of_mem_keys {α β : Type} [DecidableEq α] {k : α}
    {m : List (α × β)} (h : k ∈ m.map Prod.fst) : (alookup k m).isSome := by
  induction m with
  | nil => simp at h
  | cons hd tl ih =>
      obtain ⟨k₂, v₂⟩ := hd
      by_cases h₂ : k₂ = k
      · simp [alookup, h₂]
      · simp only [List.map_cons, List.mem_cons] at h
        rcases h with h | h
        · exact absurd h.symm h₂
        · simp [alookup, h₂, ih h]

theorem mem_keys_of_alookup_isSome {α β : Type} [DecidableEq α] {k : α}
    {m : List (α × β)} (h : (alookup k m).isSome) : k ∈ m.map Prod.fst := by
  induction m with
  | nil => simp [alookup] at h
  | cons hd tl ih =>
      obtain ⟨k₂, v₂⟩ := hd
      by_cases h₂ : k₂ = k
      · simp [h₂]
      · simp only [alookup, if_neg h₂] at h
        simp [ih h]

theorem alookup_eq_some_of_mem_nodup {α β : Type} [DecidableEq α]
    {k : α} {v : β} {m : List (α × β)} (hn : (m.map Prod.fst).Nodup)
    (h : (k, v) ∈ m) : alookup k m = some v := by
  induction m with
  | nil => simp at h
  | cons hd tl ih =>
      obtain ⟨k₂, v₂⟩ := hd
      simp only [List.map_cons, List.nodup_cons] at hn
      rcases List.mem_cons.mp h with h | h
      · cases h
        simp [alookup]
      · have hk : k₂ ≠ k := by
          intro he
          exact hn.1 (he ▸ (List.mem_map.mpr ⟨(k, v), h, rfl⟩))
        simp [alookup, hk, ih hn.2 h]

theorem mem_of_alookup_eq_some {α β : Type} [DecidableEq α]
    {k : α} {v : β} {m : List (α × β)} (h : alookup k m = some v) :
    (k, v) ∈ m := by
  induction m with
  | nil => simp [alookup] at h
  | cons hd tl ih =>
      obtain ⟨k₂, v₂⟩ := hd
      by_cases h₂ : k₂ = k
      · simp only [alookup, if_pos h₂, Option.some.injEq] at h
        subst h₂
        subst h
        simp
      · simp only [alookup, if_neg h₂] at h
        exact List.mem_cons_of_mem _ (ih h)

/-- Name-exclusion filter (plot.rs lines 118-126): drop every span whose
name is in the configured removal set. -/
def nameFilter (remove : Option (List String)) (spans : List OwnedSpanInfo) :
    List OwnedSpanInfo :=
  match remove with
  | some r => spans.filter (fun span => !r.contains span.name)
  | none => spans

/-- One step of the merge fold (plot.rs line 132):
`full_spans.entry(span.id).or_insert(span.clone()).end = span.end`. -/
def mergeStep (m : List (Nat × OwnedSpanInfo)) (span : OwnedSpanInfo) :
    List (Nat × OwnedSpanInfo) :=
  match alookup span.id m with
  | some v => ainsert span.id { v with «end» := span.«end» } m
  | none => ainsert span.id span m

/-- The merge of windows into `full_spans` (plot.rs lines 128-133). -/
def fullSpans (spans : List OwnedSpanInfo) : List (Nat × OwnedSpanInfo) :=
  spans.foldl mergeStep []

/-- The minimum-duration filter (plot.rs lines 135-155): collect the ids of
the full spans shorter than `min_length`, then drop those ids from the
window list and the full-span map. -/
def durationFilter (min_length : Option Nat) (spans : List OwnedSpanInfo)
    (full_spans : List (Nat × OwnedSpanInfo)) :
    List OwnedSpanInfo × List (Nat × OwnedSpanInfo) :=
  match min_length with
  | some m =>
      let removed_ids :=
        (full_spans.filter (fun p => p.2.«end» - p.2.start < m)).map Prod.fst
      (spans.filter (fun span => !removed_ids.contains span.id),
       full_spans.filter (fun p => !removed_ids.contains p.1))
  | none => (spans, full_spans)

/-- One step of the earliest-start fold (plot.rs lines 157-170): keep the
smallest `start` seen for each name. -/
def earliestStep (m : List (String × Nat)) (span : OwnedSpanInfo) :
    List (String × Nat) :=
  match alookup span.name m with
  | some cur => if cur > span.start then ainsert span.name span.start m else m
  | none => ainsert span.name span.start m

/-- Earliest start per span name (plot.rs lines 157-170); the source builds
an `FxHashMap`, modelled as an association list in first-occurrence order
(hash iteration order is unspecified and no claim depends on it). -/
def earliestStarts (spans : List OwnedSpanInfo) : List (String × Nat) :=
  spans.foldl earliestStep []

/-- Lane bookkeeping of the assignment loop (plot.rs lines 172-198):
`lanes_end` maps a name to the per-lane latest `end`, `span_lanes` maps a
full span id to its lane index. -/
structure LaneState where
  lanes_end : List (String × List Nat)
  span_lanes : List (Nat × Nat)
  deriving DecidableEq, Repr

/-- `lanes.iter_mut().enumerate().find(|(_idx, end)| &full_span.start > end)`
(plot.rs lines 181-184): index of the first lane whose recorded end is
strictly below `start`. -/
def findLane (start : Nat) : List Nat → Option Nat
  | [] => none
  | laneEnd :: rest =>
      if start > laneEnd then some 0 else (findLane start rest).map (· + 1)

/-- One iteration of the lane-assignment loop (plot.rs lines 178-198).  In
multi-lane mode the span goes to the first free lane (updating that lane's
end) or opens a new lane; in collapsed mode every span gets lane 0 and the
single recorded lane end is overwritten. -/
def assignLane (multi_lane : Bool) (st : LaneState)
    (full_span : OwnedSpanInfo) : LaneState :=
  if multi_lane then
    let lanes := (alookup full_span.name st.lanes_end).getD []
    match findLane full_span.start lanes with
    | some idx =>
        { lanes_end :=
            ainsert full_span.name (lanes.set idx full_span.«end») st.lanes_end
          span_lanes := ainsert full_span.id idx st.span_lanes }
    | none =>
        { lanes_end :=
            ainsert full_span.name (lanes ++ [full_span.«end»]) st.lanes_end
          span_lanes := ainsert full_span.id lanes.length st.span_lanes }
  else
    { lanes_end :=
        ainsert full_span.name
          (((alookup full_span.name st.lanes_end).getD
              [full_span.«end»]).set 0 full_span.«end») st.lanes_end
      span_lanes := ainsert full_span.id 0 st.span_lanes }

/-- The lane-assignment loop over the start-sorted full spans
(plot.rs lines 174-198). -/
def laneAssignment (multi_lane : Bool) (fss : List OwnedSpanInfo) :
    LaneState :=
  fss.foldl (assignLane multi_lane) ⟨[], []⟩

/-- `full_spans_sorted.sort_by_key(|span| span.start)` (plot.rs lines
176-177); Rust's `sort_by_key` is stable, as is insertion sort, and any two
stable sorts by the same key agree. -/
def sortByStart (l : List OwnedSpanInfo) : List OwnedSpanInfo :=
  List.insertionSort (fun a b => a.start ≤ b.start) l

/-- `earliest_starts.sort_by_key(|(_name, duration)| *duration)`
(plot.rs lines 202-203). -/
def sortNamesByStart (l : List (String × Nat)) : List (String × Nat) :=
  List.insertionSort (fun a b => a.2 ≤ b.2) l

/-- Legend rank per name (plot.rs lines 204-209): position in the sorted
earliest-start list, plus one reserved header row. -/
def nameOffsets (earliest_sorted : List (String × Nat)) :
    List (String × Nat) :=
  earliest_sorted.enum.map (fun p => (p.2.1, p.1 + 1))

theorem alookup_mergeStep (i : Nat) (m : List (Nat × OwnedSpanInfo))
    (s : OwnedSpanInfo) :
    alookup i (mergeStep m s) =
      if s.id = i then
        match alookup i m with
        | some v => some { v with «end» := s.«end» }
        | none => some s
      else alookup i m := by
  unfold mergeStep
  by_cases hi : s.id = i
  · subst hi
    cases h : alookup s.id m with
    | some v => simp [h, alookup_ainsert_self]
    | none => simp [h, alookup_ainsert_self]
  · have hne : i ≠ s.id := fun hh => hi hh.symm
    cases h : alookup s.id m with
    | some v => simp [hi, h, alookup_ainsert_ne _ _ hne]
    | none => simp [hi, h, alookup_ainsert_ne _ _ hne]

/-- Folding the windows of a single identity: the first window is kept and
each later window overwrites the `end`. -/
def singleFold (acc : Option OwnedSpanInfo) (ws : List OwnedSpanInfo) :
    Option OwnedSpanInfo :=
  ws.foldl
    (fun acc s =>
      match acc with
      | some v => some { v with «end» := s.«end» }
      | none => some s)
    acc

/-- The entry of identity `i` in the merge of an arbitrary interleaved span
list depends only on the windows of identity `i`, folded in order. -/
theorem lookup_foldl_mergeStep (i : Nat) :
    ∀ (l : List OwnedSpanInfo) (m : List (Nat × OwnedSpanInfo)),
      alookup i (l.foldl mergeStep m) =
        singleFold (alookup i m) (l.filter (fun s => s.id == i)) := by
  intro l
  induction l with
  | nil => intro m; rfl
  | cons s rest ih =>
      intro m
      simp only [List.foldl_cons]
      rw [ih]
      by_cases hi : s.id = i
      · have hf : List.filter (fun s => s.id == i) (s :: rest) =
            s :: List.filter (fun s => s.id == i) rest := by
          simp [List.filter_cons, hi]
        rw [hf]
        have hs : singleFold (alookup i m)
            (s :: List.filter (fun s => s.id == i) rest) =
            singleFold
              (match alookup i m with
               | some v => some { v with «end» := s.«end» }
               | none => some s)
              (List.filter (fun s => s.id == i) rest) := rfl
        rw [hs, alookup_mergeStep, if_pos hi]
      · have hf : List.filter (fun s => s.id == i) (s :: rest) =
            List.filter (fun s => s.id == i) rest := by
          simp [List.filter_cons, hi]
        rw [hf, alookup_mergeStep, if_neg hi]

/-- The last `end` seen while folding, starting from default `d`. -/
def lastEndFrom (d : Nat) (ws : List OwnedSpanInfo) : Nat :=
  ws.foldl (fun _ s => s.«end») d

theorem singleFold_some :
    ∀ (ws : List OwnedSpanInfo) (v : OwnedSpanInfo),
      singleFold (some v) ws =
        some { v with «end» := lastEndFrom v.«end» ws } := by
  intro ws
  induction ws with
  | nil => intro v; rfl
  | cons s rest ih =>
      intro v
      have h1 : singleFold (some v) (s :: rest) =
          singleFold (some { v with «end» := s.«end» }) rest := rfl
      rw [h1, ih]
      rfl

/-- The per-identity invariant of the spec — strictly non-overlapping,
time-ordered windows — stated on consecutive windows, upgrades to a
pairwise statement. -/
theorem ordered_pairwise :
    ∀ ws : List OwnedSpanInfo,
      List.Chain' (fun a b => a.«end» ≤ b.start) ws →
      (∀ w ∈ ws, w.start ≤ w.«end») →
      List.Pairwise (fun a b => a.«end» ≤ b.start) ws := by
  intro ws
  induction ws with
  | nil => intro _ _; exact List.Pairwise.nil
  | cons w rest ih =>
      intro hc hse
      cases rest with
      | nil => exact List.pairwise_singleton _ _
      | cons r rest' =>
          obtain ⟨hwr, hc'⟩ := List.chain'_cons.mp hc
          have hp := ih hc' (fun x hx => hse x (List.mem_cons_of_mem _ hx))
          refine List.Pairwise.cons ?_ hp
          intro x hx
          rcases List.mem_cons.mp hx with hx | hx
          · exact hx ▸ hwr
          · have hrx : r.«end» ≤ x.start :=
              (List.pairwise_cons.mp hp).1 x hx
            have hrse : r.start ≤ r.«end» :=
              hse r (List.mem_cons_of_mem _ (List.mem_cons_self _ _))
            exact le_trans hwr (le_trans hrse hrx)

theorem lastEndFrom_spec :
    ∀ (rest : List OwnedSpanInfo) (v : OwnedSpanInfo),
      List.Pairwise (fun a b => a.«end» ≤ b.start) (v :: rest) →
      (∀ w ∈ v :: rest, w.start ≤ w.«end») →
      (∃ w ∈ v :: rest, lastEndFrom v.«end» rest = w.«end») ∧
        (∀ w ∈ v :: rest, w.«end» ≤ lastEndFrom v.«end» rest) := by
  intro rest
  induction rest with
  | nil =>
      intro v _ _
      exact ⟨⟨v, List.mem_cons_self _ _, rfl⟩, by
        intro w hw
        rcases List.mem_cons.mp hw with hw | hw
        · exact hw ▸ le_refl _
        · simp at hw⟩
  | cons s rest' ih =>
      intro v hp hse
      have hps : List.Pairwise (fun a b => a.«end» ≤ b.start) (s :: rest') :=
        (List.pairwise_cons.mp hp).2
      have hses : ∀ w ∈ s :: rest', w.start ≤ w.«end» :=
        fun w hw => hse w (List.mem_cons_of_mem _ hw)
      have heq : lastEndFrom v.«end» (s :: rest') =
          lastEndFrom s.«end» rest' := rfl
      obtain ⟨⟨w, hw, hwe⟩, hall⟩ := ih s hps hses
      refine ⟨⟨w, List.mem_cons_of_mem _ hw, heq ▸ hwe⟩, ?_⟩
      intro x hx
      rcases List.mem_cons.mp hx with hx | hx
      · subst hx
        have h1 : x.«end» ≤ s.start :=
          (List.pairwise_cons.mp hp).1 s (List.mem_cons_self _ _)
        have h2 : s.start ≤ s.«end» := hse s (by simp)
        have h3 : s.«end» ≤ lastEndFrom s.«end» rest' := hall s (by simp)
        rw [heq]
        exact le_trans h1 (le_trans h2 h3)
      · rw [heq]
        exact hall x hx

theorem foldl_mergeStep_keys_nodup :
    ∀ (l : List OwnedSpanInfo) (m : List (Nat × OwnedSpanInfo)),
      ((m.map Prod.fst).Nodup) →
      (((l.foldl mergeStep m).map Prod.fst).Nodup) := by
  intro l
  induction l with
  | nil => intro m h; exact h
  | cons s rest ih =>
      intro m h
      simp only [List.foldl_cons]
      refine ih _ ?_
      unfold mergeStep
      cases hl : alookup s.id m with
      | some v =>
          rw [ainsert_keys_of_mem _ (by simp [hl])]
          exact h
      | none =>
          rw [ainsert_keys_of_not_mem _ hl]
          have : s.id ∉ m.map Prod.fst := by
            intro hmem
            have := alookup_isSome_of_mem_keys hmem
            simp [hl] at this
          simp [List.nodup_append, h, this]

theorem countP_key_eq_one {i : Nat} :
    ∀ {m : List (Nat × OwnedSpanInfo)}, (m.map Prod.fst).Nodup →
      (alookup i m).isSome → m.countP (fun p => p.1 == i) = 1 := by
  intro m
  induction m with
  | nil => intro _ h; simp [alookup] at h
  | cons hd tl ih =>
      intro hn h
      obtain ⟨k, v⟩ := hd
      simp only [List.map_cons, List.nodup_cons] at hn
      by_cases hk : k = i
      · subst hk
        have hz : tl.countP (fun p => p.1 == k) = 0 := by
          refine List.countP_eq_zero.mpr ?_
          intro p hp hpk
          exact hn.1 (by
            have : p.1 = k := by simpa using hpk
            exact this ▸ List.mem_map.mpr ⟨p, hp, rfl⟩)
        simp [List.countP_cons, hz]
      · simp only [alookup, if_neg hk] at h
        have := ih hn.2 h
        simp [List.countP_cons, hk, this]

/-- Demonstration input for the merge: two windows of identity 1. -/
def c1Demo : List OwnedSpanInfo :=
  [⟨1, "a", 0, 10, none, true, none⟩, ⟨1, "a", 15, 20, none, true, none⟩]

theorem c1Demo_chain :
    List.Chain' (fun a b => a.«end» ≤ b.start)
      (List.filter (fun s => s.id == 1) c1Demo) := by
  have h : List.filter (fun s => s.id == 1) c1Demo = c1Demo := by decide
  rw [h]
  simp only [c1Demo]
  exact List.chain'_cons.mpr ⟨by decide, List.chain'_singleton _⟩

/-- C1: for every identity whose windows obey the per-identity invariant
(consecutive windows separated in time, each with `start ≤ end`, presented
in emission order), the merge step produces exactly one full span for that
identity, whose `start` is the minimum window start and whose `end` is the
maximum window end; in particular the two windows `[0,10)` and `[15,20)` of
identity 1 merge into `[0,20)`. -/
theorem c1_merge_full_span (spans : List OwnedSpanInfo) (i : Nat)
    (hne : spans.filter (fun s => s.id == i) ≠ [])
    (hchain : List.Chain' (fun a b => a.«end» ≤ b.start)
      (spans.filter (fun s => s.id == i)))
    (hwf : ∀ w ∈ spans.filter (fun s => s.id == i), w.start ≤ w.«end») :
    (∃ fs, alookup i (fullSpans spans) = some fs ∧
      (fullSpans spans).countP (fun p => p.1 == i) = 1 ∧
      (∃ w ∈ spans.filter (fun s => s.id == i), fs.start = w.start) ∧
      (∀ w ∈ spans.filter (fun s => s.id == i), fs.start ≤ w.start) ∧
      (∃ w ∈ spans.filter (fun s => s.id == i), fs.«end» = w.«end») ∧
      (∀ w ∈ spans.filter (fun s => s.id == i), w.«end» ≤ fs.«end»)) ∧
    alookup 1 (fullSpans c1Demo) =
      some ⟨1, "a", 0, 20, none, true, none⟩ := by
  constructor
  · have hlook : alookup i (fullSpans spans) =
        singleFold none (spans.filter (fun s => s.id == i)) := by
      unfold fullSpans
      rw [lookup_foldl_mergeStep]
      rfl
    cases hws : spans.filter (fun s => s.id == i) with
    | nil => exact absurd hws hne
    | cons w rest =>
        rw [hws] at hlook hchain hwf
        have hsf : singleFold none (w :: rest) = singleFold (some w) rest :=
          rfl
        rw [hsf, singleFold_some] at hlook
        have hpair := ordered_pairwise (w :: rest) hchain hwf
        obtain ⟨⟨wmax, hwmax, hwmaxe⟩, hallmax⟩ :=
          lastEndFrom_spec rest w hpair hwf
        refine ⟨_, hlook, ?_, ?_, ?_, ?_, ?_⟩
        · -- exactly one entry for identity i
          have hnodup := foldl_mergeStep_keys_nodup spans [] (by simp)
          have hsome : (alookup i (fullSpans spans)).isSome := by
            rw [hlook]; rfl
          exact countP_key_eq_one hnodup hsome
        · exact ⟨w, by simp, rfl⟩
        · intro x hx
          rcases List.mem_cons.mp hx with hx | hx
          · exact hx ▸ le_refl _
          · have h1 : w.«end» ≤ x.start :=
              (List.pairwise_cons.mp hpair).1 x hx
            have h2 : w.start ≤ w.«end» := hwf w (by simp)
            exact le_trans h2 h1
        · exact ⟨wmax, hwmax, hwmaxe⟩
        · intro x hx
          exact hallmax x hx
  · decide

/-- Witness for C1 at the concrete two-window input. -/
theorem c1_merge_full_span_witness :
    (∃ fs, alookup 1 (fullSpans c1Demo) = some fs ∧
      (fullSpans c1Demo).countP (fun p => p.1 == 1) = 1 ∧
      (∃ w ∈ c1Demo.filter (fun s => s.id == 1), fs.start = w.start) ∧
      (∀ w ∈ c1Demo.filter (fun s => s.id == 1), fs.start ≤ w.start) ∧
      (∃ w ∈ c1Demo.filter (fun s => s.id == 1), fs.«end» = w.«end») ∧
      (∀ w ∈ c1Demo.filter (fun s => s.id == 1), w.«end» ≤ fs.«end»)) ∧
    alookup 1 (fullSpans c1Demo) =
      some ⟨1, "a", 0, 20, none, true, none⟩ :=
  c1_merge_full_span c1Demo 1 (by decide) c1Demo_chain (by decide)

/-- Three decimal digits of padding for the millisecond part. -/
def pad3 (n : Nat) : String :=
  if n < 10 then "00" ++ toString n
  else if n < 100 then "0" ++ toString n
  else toString n

/-- Decimal seconds with three fractional digits.  The source formats
`as_secs_f32()` through a float; this model uses exact nanosecond
arithmetic (no claim inspects the digits). -/
def secsString (d : Nat) : String :=
  toString (d / 1000000000) ++ "." ++ pad3 (d % 1000000000 / 1000000)

/-- The right-edge header label (plot.rs line 243). -/
def formatSecs (d : Nat) : String := secsString d ++ "s"

/-- The filter caption (plot.rs lines 252-255). -/
def filterCaption (m : Nat) : String := "only spans >" ++ secsString m ++ "s"

/-- One `key: value` tooltip line (plot.rs line 286). -/
def fieldLine (kv : String × String) : String := kv.1 ++ ": " ++ kv.2

/-- `format_tooltip` (plot.rs lines 281-289). -/
def formatTooltip (span : OwnedSpanInfo) : String :=
  span.name ++ " " ++ formatSecs (span.«end» - span.start) ++ "\n" ++
    String.intercalate "\n" ((span.fields.getD []).map fieldLine)

/-- A positioned text label of the output document. -/
structure TextElem where
  content : String
  x : ℚ
  y : Nat
  deriving DecidableEq, Repr

/-- A positioned rectangle of the output document, with its tooltip. -/
structure RectElem where
  x : ℚ
  y : Nat
  width : ℚ
  height : Nat
  fill : String
  tooltip : String
  deriving DecidableEq, Repr

/-- The vector document (plot.rs lines 229-365): canvas dimensions, the
text labels and the rectangles, in insertion order. -/
structure SvgDoc where
  width : Nat
  height : Nat
  texts : List TextElem
  rects : List RectElem
  deriving DecidableEq, Repr

/-- The header row labels (plot.rs lines 234-263): `0s` on the left edge of
the content column, the formatted end duration on its right edge, and, when
a minimum-length filter is active, the explanatory caption at the far
left. -/
def headerTexts (endT : Nat) (config : PlotConfig) (layout : PlotLayout) :
    List TextElem :=
  [⟨"0s", (layout.text_col_width : ℚ),
      layout.padding_top + layout.bar_height / 2⟩,
   ⟨formatSecs endT,
      ((layout.text_col_width + layout.content_col_width : Nat) : ℚ),
      layout.padding_top + layout.bar_height / 2⟩] ++
    match config.min_length with
    | some m =>
        [⟨filterCaption m, (layout.padding_left : ℚ),
            layout.padding_top + layout.bar_height / 2⟩]
    | none => []

/-- The cumulative extra-lane offsets (plot.rs lines 211-217).  The loop
indexes `lanes_end[name]`, which panics if the name has no lane entry;
`none` models that panic.  Result: the cumulative map and the final
`extra_lanes_cur` counter. -/
def extraLanesCumulative (earliest_sorted : List (String × Nat))
    (lanes_end : List (String × List Nat)) :
    Option (List (String × Nat) × Nat) :=
  earliest_sorted.foldlM
    (fun acc p =>
      match alookup p.1 lanes_end with
      | some lanes => some (ainsert p.1 acc.2 acc.1, acc.2 + (lanes.length - 1))
      | none => none)
    ([], 0)

/-- The legend labels on the left (plot.rs lines 265-279).  Indexing
`extra_lanes_cumulative[name]` panics when absent (`none`). -/
def legendTexts (name_offsets cum : List (String × Nat))
    (layout : PlotLayout) (extra_lane_height : Nat) :
    Option (List TextElem) :=
  name_offsets.mapM
    (fun p =>
      match alookup p.1 cum with
      | some extra =>
          some ⟨p.1, (layout.padding_left : ℚ),
            layout.padding_top + layout.bar_height / 2 +
              p.2 * (layout.bar_height + layout.section_padding_height) +
              extra_lane_height * extra⟩
      | none => none)

/-- The active top-half bar of each surviving window (plot.rs lines
291-321).  Indexing `name_offsets[..]` / `extra_lanes_cumulative[..]`
panics when the name is absent (`none`). -/
def spanRects (spans : List OwnedSpanInfo) (endT : Nat)
    (config : PlotConfig) (layout : PlotLayout)
    (name_offsets cum : List (String × Nat)) (extra_lane_height : Nat) :
    Option (List RectElem) :=
  spans.mapM
    (fun span =>
      match alookup span.name name_offsets, alookup span.name cum with
      | some offset, some extra =>
          some ⟨(layout.text_col_width : ℚ) +
                  (layout.content_col_width : ℚ) * secsQ span.start /
                    secsQ endT,
                offset * (layout.bar_height + layout.section_padding_height) +
                  extra_lane_height * extra,
                (layout.content_col_width : ℚ) * span.secs / secsQ endT,
                layout.bar_height / 2,
                (if span.is_main_thread then config.color_top_blocking
                 else config.color_top_threadpool),
                formatTooltip span⟩
      | _, _ => none)

/-- The bottom-half full-span bar, with its optional inline field text
(plot.rs lines 323-364).  Indexing `name_offsets[..]`,
`extra_lanes_cumulative[..]` or `span_lanes[..]` panics when the key is
absent (`none`). -/
def fullSpanRects (full_spans : List OwnedSpanInfo) (endT : Nat)
    (config : PlotConfig) (layout : PlotLayout)
    (name_offsets cum : List (String × Nat)) (span_lanes : List (Nat × Nat))
    (extra_lane_height : Nat) :
    Option (List (RectElem × Option TextElem)) :=
  full_spans.mapM
    (fun full_span =>
      match alookup full_span.name name_offsets,
          alookup full_span.name cum, alookup full_span.id span_lanes with
      | some offset, some extra, some lane =>
          let x := (layout.text_col_width : ℚ) +
            (layout.content_col_width : ℚ) * secsQ full_span.start /
              secsQ endT
          let y := offset *
              (layout.bar_height + layout.section_padding_height) +
            extra_lane_height * extra + extra_lane_height * lane +
            layout.bar_height / 2
          let height := layout.bar_height / 2
          let rect : RectElem :=
            ⟨x, y,
             (layout.content_col_width : ℚ) *
               secsQ (full_span.«end» - full_span.start) / secsQ endT,
             height, config.color_bottom, formatTooltip full_span⟩
          let inline : Option TextElem :=
            match full_span.fields.getD [] with
            | [kv] =>
                if config.inline_field then
                  some ⟨kv.2, x, y + height / 2⟩
                else none
            | _ => none
          some (rect, inline)
      | _, _, _ => none)

/-- The plot stages after filtering (plot.rs lines 157-365), from the
surviving windows and full spans to the document. -/
def plotCore (spans : List OwnedSpanInfo)
    (full_spans : List (Nat × OwnedSpanInfo)) (endT : Nat)
    (config : PlotConfig) (layout : PlotLayout) : Option SvgDoc :=
  let laneSt := laneAssignment config.multi_lane
    (sortByStart (full_spans.map Prod.snd))
  let extra_lane_height := layout.bar_height / 2 + layout.multi_lane_padding
  let earliest_sorted := sortNamesByStart (earliestStarts spans)
  let name_offsets := nameOffsets earliest_sorted
  match extraLanesCumulative earliest_sorted laneSt.lanes_end with
  | none => none
  | some cumAndCount =>
      match legendTexts name_offsets cumAndCount.1 layout extra_lane_height
      with
      | none => none
      | some legend =>
          match spanRects spans endT config layout name_offsets
              cumAndCount.1 extra_lane_height with
          | none => none
          | some topRects =>
              match fullSpanRects (full_spans.map Prod.snd) endT config
                  layout name_offsets cumAndCount.1 laneSt.span_lanes
                  extra_lane_height with
              | none => none
              | some bottomItems =>
                  some
                    { width := layout.padding_left + layout.text_col_width +
                        layout.content_col_width + layout.padding_right
                      height := layout.padding_top +
                        (layout.bar_height + layout.section_padding_height) *
                          (name_offsets.length + 1) +
                        extra_lane_height * cumAndCount.2 +
                        layout.padding_bottom
                      texts := headerTexts endT config layout ++ legend ++
                        bottomItems.filterMap Prod.snd
                      rects := topRects ++ bottomItems.map Prod.fst }

/-- The `plot` function (plot.rs lines 111-366): name filter, merge,
duration filter, then layout and geometry.  `none` models a panic on one of
the internal hash-map index operations. -/
def plot (spans0 : List OwnedSpanInfo) (endT : Nat) (config : PlotConfig)
    (layout : PlotLayout) : Option SvgDoc :=
  let spans1 := nameFilter config.remove spans0
  let sf := durationFilter config.min_length spans1 (fullSpans spans1)
  plotCore sf.1 sf.2 endT config layout

/-- The mutable tables of `DurationsLayer` (lib.rs lines 302-324), plus the
configuration bits the claims need.  Thread identities are opaque `Nat`s;
`out_present` says whether a durations-file writer was configured. -/
structure LayerState where
  main_thread_id : Nat
  start_index : List (Nat × Nat)
  fields : List (Nat × List (String × String))
  is_main_thread : List (Nat × Bool)
  out_present : Bool
  with_fields : Bool
  with_parents : Bool
  deriving DecidableEq, Repr

/-- `on_new_span` (lib.rs lines 347-364): when `with_fields`, record the
attribute map for the id; always record whether the creating thread is the
main thread. -/
def onNewSpan (st : LayerState) (id : Nat) (attrs : List (String × String))
    (current_thread : Nat) : LayerState :=
  let st1 :=
    if st.with_fields then { st with fields := ainsert id attrs st.fields }
    else st
  { st1 with
      is_main_thread :=
        ainsert id (st.main_thread_id == current_thread) st1.is_main_thread }

/-- `on_enter` (lib.rs lines 367-372): record `START.elapsed()` as the
current start offset of the id. -/
def onEnter (st : LayerState) (id : Nat) (now : Nat) : LayerState :=
  { st with start_index := ainsert id now st.start_index }

/-- Outcome of one `on_exit` call: either the thread panicked, or a record
was emitted. -/
inductive ExitResult where
  | panicked
  | emitted (record : OwnedSpanInfo)
  deriving DecidableEq, Repr

/-- `on_exit` (lib.rs lines 375-434).  `name` and `parents` come from the
subscriber context (`ctx.span(id)`), `now` is `START.elapsed()` at exit,
`current_thread` is the thread calling `on_exit`, and `write_result` is
what the ndjson writer reports for this record.  `panicked` models a
panic: the `self.start_index.lock()…[id]` indexing of a missing start
(lib.rs line 398), or an `unwrap` of a failed write (lib.rs lines
408-409).  Note lib.rs line 394: `is_main_thread` is recomputed from the
exiting thread; the table filled by `on_new_span` is not consulted. -/
def onExit (st : LayerState) (id : Nat) (name : String)
    (parents : List Nat) (current_thread : Nat) (now : Nat)
    (write_result : Except String Unit) : ExitResult :=
  let parentsOpt := if st.with_parents then some parents else none
  let fieldsOpt := alookup id st.fields
  let is_main_thread := st.main_thread_id == current_thread
  match alookup id st.start_index with
  | none => ExitResult.panicked
  | some start =>
      let record : OwnedSpanInfo :=
        { id := id, name := name, start := start, «end» := now
          parents := parentsOpt, is_main_thread := is_main_thread
          fields := fieldsOpt }
      if st.out_present then
        match write_result with
        | Except.error _ => ExitResult.panicked
        | Except.ok _ => ExitResult.emitted record
      else ExitResult.emitted record

/-- JSON values, for the ndjson line written per record. -/
inductive JsonValue where
  | null
  | bool (b : Bool)
  | num (n : Nat)
  | str (s : String)
  | arr (items : List JsonValue)
  | obj (members : List (String × JsonValue))

/-- `std::time::Duration` serializes as `{"secs":…,"nanos":…}`. -/
def serializeDuration (d : Nat) : JsonValue :=
  JsonValue.obj
    [("secs", JsonValue.num (d / 1000000000)),
     ("nanos", JsonValue.num (d % 1000000000))]

/-- The serde-derived serialization of `SpanInfo` (lib.rs lines 74-85):
fields in declaration order; an `Option` field whose value is `None`
serializes as JSON `null` — the struct carries no `skip_serializing_if`
attribute, so the key is written either way. -/
def serializeSpanInfo (s : OwnedSpanInfo) : JsonValue :=
  JsonValue.obj
    [("id", JsonValue.num s.id),
     ("name", JsonValue.str s.name),
     ("start", serializeDuration s.start),
     ("end", serializeDuration s.«end»),
     ("parents",
       match s.parents with
       | some ps => JsonValue.arr (ps.map JsonValue.num)
       | none => JsonValue.null),
     ("is_main_thread", JsonValue.bool s.is_main_thread),
     ("fields",
       match s.fields with
       | some kvs =>
           JsonValue.obj (kvs.map (fun kv => (kv.1, JsonValue.str kv.2)))
       | none => JsonValue.null)]

/-- The top-level keys of a serialized object. -/
def jsonKeys : JsonValue → List String
  | JsonValue.obj members => members.map Prod.fst
  | _ => []

/-- Look up a top-level key of a serialized object. -/
def jsonGet (k : String) : JsonValue → Option JsonValue
  | JsonValue.obj members => alookup k members
  | _ => none

/-- The state the drop guard captures (lib.rs lines 254-264), with
`out_present` standing for the optional buffered writer. -/
structure DropGuardState where
  out_present : Bool
  plot_file : Option String
  plot_data : List OwnedSpanInfo
  plot_config : PlotConfig
  plot_layout : PlotLayout

/-- What dropping the guard does: whether the sink was flushed, and
whether / with what result the plot was computed (`none` = the plot step
was skipped entirely). -/
structure DropEffect where
  flushed : Bool
  plotted : Option (Option SvgDoc)

/-- `self.plot_data.lock().unwrap().iter().map(|span| span.end).max()`
(lib.rs lines 277-283). -/
def maxEnd : List OwnedSpanInfo → Option Nat
  | [] => none
  | s :: rest =>
      some
        (match maxEnd rest with
         | none => s.«end»
         | some m => max s.«end» m)

/-- `Drop for DurationsLayerDropGuard` (lib.rs lines 266-299): flush the
writer when one exists (a flush error is printed and ignored), then — only
when a plot file was configured AND the recorded span list is non-empty
(`end` is `Some`) — compute the plot from the recorded spans. -/
def dropGuardRun (g : DropGuardState) : DropEffect :=
  { flushed := g.out_present
    plotted :=
      match g.plot_file with
      | some _ =>
          match maxEnd g.plot_data with
          | some e =>
              some (plot g.plot_data e g.plot_config g.plot_layout)
          | none => none
      | none => none }

/-- A recorder whose layer was built with `with_parents = false` and
`with_fields = false`, after `on_enter` of span 4 at offset 2. -/
def c3State : LayerState :=
  onEnter ⟨0, [], [], [], true, false, false⟩ 4 2

/-- The record span 4 emits from `c3State` at offset 8. -/
def c3Record : OwnedSpanInfo := ⟨4, "req", 2, 8, none, true, none⟩

/-- C3: with the capture flags disabled the emitted record still carries
the `parents` and `fields` keys, serialized as JSON `null` — the optional
fields are not omitted (the derived serializer has no skip attribute),
contradicting the claim and the crate's own doc examples. -/
theorem c3_null_keys_not_omitted :
    onExit c3State 4 "req" [] 0 8 (Except.ok ()) =
        ExitResult.emitted c3Record ∧
      jsonGet "parents" (serializeSpanInfo c3Record) =
        some JsonValue.null ∧
      jsonGet "fields" (serializeSpanInfo c3Record) =
        some JsonValue.null ∧
      jsonKeys (serializeSpanInfo c3Record) =
        ["id", "name", "start", "end", "parents", "is_main_thread",
         "fields"] :=
  ⟨by decide, rfl, rfl, rfl⟩

/-- A recorder whose main thread is 0, where span 5 was created on thread 0
(the stored execution-context flag is `true`) and entered at offset 10. -/
def c4State : LayerState :=
  onEnter (onNewSpan ⟨0, [], [], [], true, true, true⟩ 5 [] 0) 5 10

/-- C4: the execution-context flag of the emitted window is recomputed from
the thread that calls `on_exit` (lib.rs line 394), not looked up from the
table `on_new_span` filled at creation: span 5 was created on the main
thread (stored flag `true`) but exits on thread 1, and the emitted record
carries `is_main_thread = false`. -/
theorem c4_context_recomputed_at_exit :
    alookup 5 c4State.is_main_thread = some true ∧
      onExit c4State 5 "work" [] 1 90 (Except.ok ()) =
        ExitResult.emitted ⟨5, "work", 10, 90, some [], false, some []⟩ := by
  decide

/-- A drop guard with a requested plot file and no recorded spans. -/
def c5EmptyGuard : DropGuardState :=
  ⟨true, some "traces.svg", [], defaultPlotConfig, defaultPlotLayout⟩

/-- C5 counterexample: with a plot file requested but zero windows
recorded, dropping the guard skips the plot entirely (lib.rs lines
284-295: `let Some(end) = end` fails on an empty span list). -/
theorem c5_empty_skips_plot :
    c5EmptyGuard.plot_file.isSome = true ∧
      (dropGuardRun c5EmptyGuard).plotted = none := ⟨rfl, rfl⟩

/-- C5 (amended): dropping the guard flushes the sink when a writer
exists, and computes the plot from the recorded windows exactly when a
plot file was requested and at least one window was recorded. -/
theorem c5_drop_flushes_and_plots (g : DropGuardState)
    (hfile : g.plot_file.isSome) (hdata : g.plot_data ≠ []) :
    (dropGuardRun g).flushed = g.out_present ∧
      ∃ e, maxEnd g.plot_data = some e ∧
        (dropGuardRun g).plotted =
          some (plot g.plot_data e g.plot_config g.plot_layout) := by
  refine ⟨rfl, ?_⟩
  obtain ⟨f, hf⟩ := Option.isSome_iff_exists.mp hfile
  cases hd : g.plot_data with
  | nil => exact absurd hd hdata
  | cons s rest =>
      refine ⟨_, rfl, ?_⟩
      simp only [dropGuardRun, hf, hd]
      rfl

/-- Witness for C5's amended statement at a one-window guard. -/
def c5Guard : DropGuardState :=
  ⟨true, some "traces.svg", [⟨1, "a", 0, 7, none, true, none⟩],
    defaultPlotConfig, defaultPlotLayout⟩

theorem c5_drop_flushes_and_plots_witness :
    (dropGuardRun c5Guard).flushed = c5Guard.out_present ∧
      ∃ e, maxEnd c5Guard.plot_data = some e ∧
        (dropGuardRun c5Guard).plotted =
          some (plot c5Guard.plot_data e c5Guard.plot_config
            c5Guard.plot_layout) :=
  c5_drop_flushes_and_plots c5Guard (by decide) (by decide)

/-- A recorder holding a start offset for span 6, with a durations writer
configured. -/
def c6State : LayerState := ⟨0, [(6, 3)], [], [], true, true, true⟩

/-- C6 counterexample: an I/O error from the ndjson writer during
`on_exit` panics the instrumented thread (the write results are
`unwrap`ped, lib.rs lines 408-409) instead of being propagated as a
recoverable result. -/
theorem c6_write_error_panics :
    onExit c6State 6 "req" [] 0 9 (Except.error "disk full") =
      ExitResult.panicked := by decide

/-- C6 (amended): whenever the durations writer is configured and reports
an I/O error for the record written during `on_exit`, the call panics; the
error is not surfaced as a recoverable result. -/
theorem c6_write_error_always_panics (st : LayerState) (id : Nat)
    (name : String) (parents : List Nat) (ct now : Nat) (e : String)
    (hstart : (alookup id st.start_index).isSome)
    (hout : st.out_present = true) :
    onExit st id name parents ct now (Except.error e) =
      ExitResult.panicked := by
  obtain ⟨s, hs⟩ := Option.isSome_iff_exists.mp hstart
  simp [onExit, hs, hout]

theorem c6_write_error_always_panics_witness :
    ((alookup 6 c6State.start_index).isSome = true ∧
        c6State.out_present = true) ∧
      onExit c6State 6 "req" [] 0 9 (Except.error "no space") =
        ExitResult.panicked :=
  ⟨⟨rfl, rfl⟩,
    c6_write_error_always_panics c6State 6 "req" [] 0 9 "no space"
      (by decide) rfl⟩

/-- C7: `on_exit` for an identity with no stored start offset panics at
the start-index lookup and emits nothing, and every emitted record carries
exactly the stored start — never a defaulted value. -/
theorem c7_exit_without_enter_panics (st : LayerState) (id : Nat)
    (name : String) (parents : List Nat) (ct now : Nat)
    (wr : Except String Unit) :
    (alookup id st.start_index = none →
      onExit st id name parents ct now wr = ExitResult.panicked) ∧
      (∀ r, onExit st id name parents ct now wr = ExitResult.emitted r →
        alookup id st.start_index = some r.start) := by
  constructor
  · intro h
    simp [onExit, h]
  · intro r hr
    unfold onExit at hr
    cases hs : alookup id st.start_index with
    | none =>
        rw [hs] at hr
        simp at hr
    | some s =>
        rw [hs] at hr
        cases hout : st.out_present with
        | false =>
            simp [hout] at hr
            subst hr
            rfl
        | true =>
            cases wr with
            | error e =>
                simp [hout] at hr
            | ok u =>
                simp [hout] at hr
                subst hr
                rfl

/-- A recorder with no stored start for span 7. -/
def c7Missing : LayerState := ⟨0, [], [], [], true, true, true⟩

/-- A recorder with start offset 42 stored for span 7. -/
def c7Present : LayerState := ⟨0, [(7, 42)], [], [], false, true, true⟩

theorem c7_exit_without_enter_panics_witness :
    onExit c7Missing 7 "s" [] 0 50 (Except.ok ()) = ExitResult.panicked ∧
      alookup 7 c7Present.start_index = some 42 :=
  ⟨(c7_exit_without_enter_panics c7Missing 7 "s" [] 0 50
      (Except.ok ())).1 rfl,
    (c7_exit_without_enter_panics c7Present 7 "s" [] 0 50
      (Except.ok ())).2 ⟨7, "s", 42, 50, some [], true, none⟩ (by decide)⟩

/-- Every key of the merged map comes from some window of the input. -/
theorem keys_foldl_mergeStep :
    ∀ (l : List OwnedSpanInfo) (m : List (Nat × OwnedSpanInfo)) (k : Nat),
      k ∈ (l.foldl mergeStep m).map Prod.fst →
      k ∈ m.map Prod.fst ∨ ∃ w ∈ l, w.id = k := by
  intro l
  induction l with
  | nil => intro m k h; exact Or.inl h
  | cons s rest ih =>
      intro m k h
      simp only [List.foldl_cons] at h
      rcases ih (mergeStep m s) k h with h | h
      · unfold mergeStep at h
        cases hl : alookup s.id m with
        | some v =>
            rw [hl, ainsert_keys_of_mem _ (by simp [hl])] at h
            exact Or.inl h
        | none =>
            rw [hl, ainsert_keys_of_not_mem _ hl] at h
            rcases List.mem_append.mp h with h | h
            · exact Or.inl h
            · simp only [List.mem_singleton] at h
              exact Or.inr ⟨s, List.mem_cons_self _ _, h.symm⟩
      · obtain ⟨w, hw, hwe⟩ := h
        exact Or.inr ⟨w, List.mem_cons_of_mem _ hw, hwe⟩

/-- If the duration filter leaves no windows, it also leaves no full
spans (every full span's key is witnessed by a window subject to the same
removal test). -/
theorem durationFilter_snd_nil (ml : Option Nat)
    (spans : List OwnedSpanInfo) (fs : List (Nat × OwnedSpanInfo))
    (hkeys : ∀ k, k ∈ fs.map Prod.fst → ∃ w ∈ spans, w.id = k)
    (h1 : (durationFilter ml spans fs).1 = []) :
    (durationFilter ml spans fs).2 = [] := by
  cases ml with
  | none =>
      simp only [durationFilter] at h1 ⊢
      subst h1
      cases fs with
      | nil => rfl
      | cons p rest =>
          obtain ⟨w, hw, _⟩ := hkeys p.1 (by simp)
          simp at hw
  | some m =>
      simp only [durationFilter] at h1 ⊢
      rw [List.filter_eq_nil_iff] at h1 ⊢
      intro p hp hpq
      obtain ⟨w, hw, hwe⟩ := hkeys p.1 (List.mem_map.mpr ⟨p, hp, rfl⟩)
      refine h1 w hw ?_
      simpa [hwe] using hpq

/-- C8: whenever the two filters remove every window, the plot is still a
valid minimal canvas: the header labels only (the `0s` label, the end
label and, if a duration filter is set, the caption), zero rectangles, and
the one-header-row dimensions. -/
theorem c8_empty_after_filters_minimal_canvas (spans0 : List OwnedSpanInfo)
    (endT : Nat) (config : PlotConfig) (layout : PlotLayout)
    (h : (durationFilter config.min_length (nameFilter config.remove spans0)
        (fullSpans (nameFilter config.remove spans0))).1 = []) :
    ∃ doc, plot spans0 endT config layout = some doc ∧
      doc.rects = [] ∧
      doc.texts = headerTexts endT config layout ∧
      doc.width = layout.padding_left + layout.text_col_width +
        layout.content_col_width + layout.padding_right ∧
      doc.height = layout.padding_top +
        (layout.bar_height + layout.section_padding_height) +
        layout.padding_bottom := by
  have h2 : (durationFilter config.min_length
      (nameFilter config.remove spans0)
      (fullSpans (nameFilter config.remove spans0))).2 = [] := by
    refine durationFilter_snd_nil _ _ _ ?_ h
    intro k hk
    rcases keys_foldl_mergeStep _ [] k hk with hc | hc
    · simp at hc
    · exact hc
  have hcore : plot spans0 endT config layout =
      plotCore [] [] endT config layout := by
    simp only [plot]
    rw [h, h2]
  rw [hcore]
  refine ⟨_, rfl, ?_, ?_, rfl, ?_⟩
  · simp [plotCore, laneAssignment, sortByStart, sortNamesByStart,
      earliestStarts, nameOffsets, extraLanesCumulative, legendTexts,
      spanRects, fullSpanRects]
  · simp [plotCore, laneAssignment, sortByStart, sortNamesByStart,
      earliestStarts, nameOffsets, extraLanesCumulative, legendTexts,
      spanRects, fullSpanRects]
  · simp [plotCore, laneAssignment, sortByStart, sortNamesByStart,
      earliestStarts, nameOffsets, extraLanesCumulative, legendTexts,
      spanRects, fullSpanRects]

/-- Input whose only window is removed by the name filter. -/
def c8Demo : List OwnedSpanInfo := [⟨1, "noise", 0, 5, none, true, none⟩]

/-- Configuration that excludes the name `noise`. -/
def c8Config : PlotConfig :=
  { defaultPlotConfig with remove := some ["noise"] }

theorem c8_empty_after_filters_minimal_canvas_witness :
    ∃ doc, plot c8Demo 5 c8Config defaultPlotLayout = some doc ∧
      doc.rects = [] ∧
      doc.texts = headerTexts 5 c8Config defaultPlotLayout ∧
      doc.width = defaultPlotLayout.padding_left +
        defaultPlotLayout.text_col_width +
        defaultPlotLayout.content_col_width +
        defaultPlotLayout.padding_right ∧
      doc.height = defaultPlotLayout.padding_top +
        (defaultPlotLayout.bar_height +
          defaultPlotLayout.section_padding_height) +
        defaultPlotLayout.padding_bottom :=
  c8_empty_after_filters_minimal_canvas c8Demo 5 c8Config
    defaultPlotLayout (by decide)

theorem mem_ainsert {α β : Type} [DecidableEq α] {p : α × β} {k : α}
    {v : β} {m : List (α × β)} (h : p ∈ ainsert k v m) :
    p = (k, v) ∨ p ∈ m := by
  induction m with
  | nil => simpa [ainsert] using h
  | cons hd tl ih =>
      obtain ⟨k₂, v₂⟩ := hd
      by_cases h₂ : k₂ = k
      · simp only [ainsert, if_pos h₂] at h
        rcases List.mem_cons.mp h with h | h
        · exact Or.inl h
        · exact Or.inr (List.mem_cons_of_mem _ h)
      · simp only [ainsert, if_neg h₂] at h
        rcases List.mem_cons.mp h with h | h
        · exact Or.inr (h ▸ List.mem_cons_self _ _)
        · rcases ih h with h | h
          · exact Or.inl h
          · exact Or.inr (List.mem_cons_of_mem _ h)

theorem ainsert_append_of_none {α β : Type} [DecidableEq α] {k : α} (v : β)
    {m : List (α × β)} (h : alookup k m = none) :
    ainsert k v m = m ++ [(k, v)] := by
  induction m with
  | nil => rfl
  | cons hd tl ih =>
      obtain ⟨k₂, v₂⟩ := hd
      by_cases h₂ : k₂ = k
      · simp [alookup, h₂] at h
      · simp only [alookup, if_neg h₂] at h
        simp [ainsert, h₂, ih h]

theorem filter_ainsert_of_pos {α β : Type} [DecidableEq α] {k : α}
    {v v' : β} {P : α × β → Bool} :
    ∀ {m : List (α × β)}, alookup k m = some v → P (k, v') = true →
      P (k, v) = true →
      (ainsert k v' m).filter P = ainsert k v' (m.filter P) := by
  intro m
  induction m with
  | nil => intro h _ _; simp [alookup] at h
  | cons hd tl ih =>
      intro h hv' hv
      obtain ⟨k₂, v₂⟩ := hd
      by_cases h₂ : k₂ = k
      · subst h₂
        simp [alookup] at h
        subst h
        simp [ainsert, List.filter_cons, hv, hv']
      · simp only [alookup, if_neg h₂] at h
        simp only [ainsert, if_neg h₂, List.filter_cons]
        cases hP : P (k₂, v₂) with
        | true => simp [ainsert, h₂, ih h hv' hv, List.filter_cons, hP]
        | false => simp [ih h hv' hv, List.filter_cons, hP]

theorem filter_ainsert_of_neg {α β : Type} [DecidableEq α] {k : α}
    {v v' : β} {P : α × β → Bool} :
    ∀ {m : List (α × β)}, alookup k m = some v → P (k, v') = false →
      P (k, v) = false →
      (ainsert k v' m).filter P = m.filter P := by
  intro m
  induction m with
  | nil => intro h _ _; simp [alookup] at h
  | cons hd tl ih =>
      intro h hv' hv
      obtain ⟨k₂, v₂⟩ := hd
      by_cases h₂ : k₂ = k
      · subst h₂
        simp [alookup] at h
        subst h
        simp [ainsert, List.filter_cons, hv, hv']
      · simp only [alookup, if_neg h₂] at h
        simp only [ainsert, if_neg h₂, List.filter_cons]
        cases hP : P (k₂, v₂) with
        | true => simp [ih h hv' hv, List.filter_cons, hP]
        | false => simp [ih h hv' hv, List.filter_cons, hP]

theorem alookup_filter_nodup {α β : Type} [DecidableEq α] {k : α}
    {P : α × β → Bool} :
    ∀ {m : List (α × β)}, (m.map Prod.fst).Nodup →
      alookup k (m.filter P) =
        (alookup k m).bind (fun v => if P (k, v) then some v else none) := by
  intro m
  induction m with
  | nil => intro _; rfl
  | cons hd tl ih =>
      intro hn
      obtain ⟨k₂, v₂⟩ := hd
      simp only [List.map_cons, List.nodup_cons] at hn
      by_cases h₂ : k₂ = k
      · subst h₂
        have hnone : alookup k₂ (tl.filter P) = none := by
          cases hh : alookup k₂ (tl.filter P) with
          | none => rfl
          | some w =>
              have hmem := mem_of_alookup_eq_some hh
              have : k₂ ∈ tl.map Prod.fst :=
                List.mem_map.mpr ⟨(k₂, w), (List.mem_filter.mp hmem).1, rfl⟩
              exact absurd this hn.1
        simp only [List.filter_cons, alookup, if_pos rfl, Option.bind]
        cases hP : P (k₂, v₂) with
        | true => simp [alookup, hP]
        | false => simp [hP, hnone]
      · simp only [List.filter_cons, alookup, if_neg h₂]
        cases hP : P (k₂, v₂) with
        | true => simp [alookup, h₂, ih hn.2, hP]
        | false => simp [ih hn.2, hP]

theorem mergeStep_keys_nodup {m : List (Nat × OwnedSpanInfo)}
    (hn : (m.map Prod.fst).Nodup) (s : OwnedSpanInfo) :
    ((mergeStep m s).map Prod.fst).Nodup := by
  unfold mergeStep
  cases hl : alookup s.id m with
  | some v =>
      rw [ainsert_keys_of_mem _ (by simp [hl])]
      exact hn
  | none =>
      rw [ainsert_keys_of_not_mem _ hl]
      have : s.id ∉ m.map Prod.fst := by
        intro hmem
        have := alookup_isSome_of_mem_keys hmem
        simp [hl] at this
      simp [List.nodup_append, hn, this]

/-- Every entry of a merge fold carries the name of one of the folded
windows (or came from the initial map). -/
theorem foldl_mergeStep_entry_witness :
    ∀ (l : List OwnedSpanInfo) (m : List (Nat × OwnedSpanInfo))
      (p : Nat × OwnedSpanInfo), p ∈ l.foldl mergeStep m →
      (∃ w ∈ l, w.id = p.1 ∧ p.2.name = w.name) ∨
        (∃ q ∈ m, q.1 = p.1 ∧ q.2.name = p.2.name) := by
  intro l
  induction l with
  | nil => intro m p h; exact Or.inr ⟨p, h, rfl, rfl⟩
  | cons s rest ih =>
      intro m p h
      simp only [List.foldl_cons] at h
      rcases ih (mergeStep m s) p h with h | h
      · obtain ⟨w, hw, hwe, hwn⟩ := h
        exact Or.inl ⟨w, List.mem_cons_of_mem _ hw, hwe, hwn⟩
      · obtain ⟨q, hq, hqk, hqn⟩ := h
        unfold mergeStep at hq
        cases hl : alookup s.id m with
        | some v =>
            rw [hl] at hq
            rcases mem_ainsert hq with hq | hq
            · subst hq
              exact Or.inr ⟨(s.id, v), mem_of_alookup_eq_some hl, hqk, hqn⟩
            · exact Or.inr ⟨q, hq, hqk, hqn⟩
        | none =>
            rw [hl, ainsert_append_of_none _ hl] at hq
            rcases List.mem_append.mp hq with hq | hq
            · exact Or.inr ⟨q, hq, hqk, hqn⟩
            · simp only [List.mem_singleton] at hq
              subst hq
              exact Or.inl ⟨s, List.mem_cons_self _ _, hqk, hqn.symm⟩

/-- Every window of the input has an entry in the merged map. -/
theorem alookup_fullSpans_isSome {w : OwnedSpanInfo}
    {l : List OwnedSpanInfo} (h : w ∈ l) :
    (alookup w.id (fullSpans l)).isSome := by
  unfold fullSpans
  rw [lookup_foldl_mergeStep]
  have hmem : w ∈ l.filter (fun s => s.id == w.id) :=
    List.mem_filter.mpr ⟨h, by simp⟩
  cases hf : l.filter (fun s => s.id == w.id) with
  | nil => rw [hf] at hmem; simp at hmem
  | cons x rest =>
      have : singleFold (alookup w.id ([] : List (Nat × OwnedSpanInfo)))
          (x :: rest) = singleFold (some x) rest := rfl
      rw [this, singleFold_some]
      rfl

/-- All windows of one identity share a name.  This holds for every record
set the recorder can produce (the name comes from the span's static
metadata), but not for arbitrary deserialized input. -/
def NameConsistent (spans : List OwnedSpanInfo) : Prop :=
  ∀ w1 ∈ spans, ∀ w2 ∈ spans, w1.id = w2.id → w1.name = w2.name

/-- Merging the name-filtered windows is the same as name-filtering the
merged map, provided windows of one identity agree on the name. -/
theorem foldl_mergeStep_filter_comm (f : String → Bool) :
    ∀ (l : List OwnedSpanInfo) (m : List (Nat × OwnedSpanInfo)),
      ((m.map Prod.fst).Nodup) →
      (∀ p ∈ m, ∀ w ∈ l, w.id = p.1 → p.2.name = w.name) →
      (∀ w1 ∈ l, ∀ w2 ∈ l, w1.id = w2.id → w1.name = w2.name) →
      (l.filter (fun w => f w.name)).foldl mergeStep
          (m.filter (fun p => f p.2.name)) =
        (l.foldl mergeStep m).filter (fun p => f p.2.name) := by
  intro l
  induction l with
  | nil => intro m _ _ _; rfl
  | cons s rest ih =>
      intro m hnodup hm hcons
      have hconsr : ∀ w1 ∈ rest, ∀ w2 ∈ rest, w1.id = w2.id →
          w1.name = w2.name :=
        fun w1 h1 w2 h2 =>
          hcons w1 (List.mem_cons_of_mem _ h1) w2 (List.mem_cons_of_mem _ h2)
      have hmr : ∀ p ∈ mergeStep m s, ∀ w ∈ rest, w.id = p.1 →
          p.2.name = w.name := by
        intro p hp w hw hwp
        unfold mergeStep at hp
        cases hl : alookup s.id m with
        | some v =>
            rw [hl] at hp
            rcases mem_ainsert hp with hp | hp
            · subst hp
              exact hm (s.id, v) (mem_of_alookup_eq_some hl) w
                (List.mem_cons_of_mem _ hw) hwp
            · exact hm p hp w (List.mem_cons_of_mem _ hw) hwp
        | none =>
            rw [hl, ainsert_append_of_none _ hl] at hp
            rcases List.mem_append.mp hp with hp | hp
            · exact hm p hp w (List.mem_cons_of_mem _ hw) hwp
            · simp only [List.mem_singleton] at hp
              subst hp
              exact hcons s (List.mem_cons_self _ _) w
                (List.mem_cons_of_mem _ hw) hwp.symm
      have hnodupr := mergeStep_keys_nodup hnodup s
      cases hf : f s.name with
      | true =>
          have hstep : mergeStep (m.filter (fun p => f p.2.name)) s =
              (mergeStep m s).filter (fun p => f p.2.name) := by
            unfold mergeStep
            cases hl : alookup s.id m with
            | some v =>
                have hvn : v.name = s.name :=
                  hm (s.id, v) (mem_of_alookup_eq_some hl) s
                    (List.mem_cons_self _ _) rfl
                have hPv : (fun p : Nat × OwnedSpanInfo => f p.2.name)
                    (s.id, v) = true := by simp [hvn, hf]
                have hlf : alookup s.id
                    (m.filter (fun p => f p.2.name)) = some v := by
                  rw [alookup_filter_nodup hnodup, hl]
                  simp [hPv]
                rw [hlf]
                exact (filter_ainsert_of_pos hl (by simp [hvn, hf]) hPv).symm
            | none =>
                have hlf : alookup s.id
                    (m.filter (fun p => f p.2.name)) = none := by
                  rw [alookup_filter_nodup hnodup, hl]
                  rfl
                rw [hlf, ainsert_append_of_none _ hl,
                  ainsert_append_of_none _ hlf, List.filter_append]
                simp [hf]
          calc (List.filter (fun w => f w.name) (s :: rest)).foldl mergeStep
                (m.filter (fun p => f p.2.name))
              = (rest.filter (fun w => f w.name)).foldl mergeStep
                  (mergeStep (m.filter (fun p => f p.2.name)) s) := by
                simp [List.filter_cons, hf]
            _ = (rest.filter (fun w => f w.name)).foldl mergeStep
                  ((mergeStep m s).filter (fun p => f p.2.name)) := by
                rw [hstep]
            _ = ((s :: rest).foldl mergeStep m).filter
                  (fun p => f p.2.name) := by
                rw [ih (mergeStep m s) hnodupr hmr hconsr]
                rfl
      | false =>
          have hstep : (mergeStep m s).filter (fun p => f p.2.name) =
              m.filter (fun p => f p.2.name) := by
            unfold mergeStep
            cases hl : alookup s.id m with
            | some v =>
                have hvn : v.name = s.name :=
                  hm (s.id, v) (mem_of_alookup_eq_some hl) s
                    (List.mem_cons_self _ _) rfl
                exact filter_ainsert_of_neg hl (by simp [hvn, hf])
                  (by simp [hvn, hf])
            | none =>
                rw [ainsert_append_of_none _ hl, List.filter_append]
                simp [hf]
          calc (List.filter (fun w => f w.name) (s :: rest)).foldl mergeStep
                (m.filter (fun p => f p.2.name))
              = (rest.filter (fun w => f w.name)).foldl mergeStep
                  (m.filter (fun p => f p.2.name)) := by
                simp [List.filter_cons, hf]
            _ = (rest.filter (fun w => f w.name)).foldl mergeStep
                  ((mergeStep m s).filter (fun p => f p.2.name)) := by
                rw [hstep]
            _ = ((s :: rest).foldl mergeStep m).filter
                  (fun p => f p.2.name) := by
                rw [ih (mergeStep m s) hnodupr hmr hconsr]
                rfl

/-- Under name-consistency, merging name-filtered windows equals
name-filtering the merge. -/
theorem fullSpans_nameFilter_comm (f : String → Bool)
    (spans : List OwnedSpanInfo) (hcons : NameConsistent spans) :
    fullSpans (spans.filter (fun w => f w.name)) =
      (fullSpans spans).filter (fun p => f p.2.name) := by
  unfold fullSpans
  exact foldl_mergeStep_filter_comm f spans [] (by simp) (by simp) hcons

theorem mem_map_fst_filter_iff {g : Nat × OwnedSpanInfo → Bool}
    {fs : List (Nat × OwnedSpanInfo)} (hn : (fs.map Prod.fst).Nodup)
    (k : Nat) :
    k ∈ (fs.filter g).map Prod.fst ↔
      ∃ v, alookup k fs = some v ∧ g (k, v) = true := by
  constructor
  · intro h
    obtain ⟨p, hp, hpk⟩ := List.mem_map.mp h
    obtain ⟨k₂, v⟩ := p
    obtain ⟨hpm, hpg⟩ := List.mem_filter.mp hp
    cases hpk
    exact ⟨v, alookup_eq_some_of_mem_nodup hn hpm, hpg⟩
  · rintro ⟨v, hv, hg⟩
    exact List.mem_map.mpr
      ⟨(k, v), List.mem_filter.mpr ⟨mem_of_alookup_eq_some hv, hg⟩, rfl⟩

theorem contains_congr {l1 l2 : List Nat} (a : Nat)
    (hi : a ∈ l1 ↔ a ∈ l2) : (!l1.contains a) = (!l2.contains a) := by
  have h1 : l1.contains a = decide (a ∈ l1) := by simp
  have h2 : l2.contains a = decide (a ∈ l2) := by simp
  rw [h1, h2, decide_eq_decide.mpr hi]

theorem filter_filter_swap {α : Type} {p q p' q' : α → Bool}
    (l : List α) (h : ∀ a ∈ l, (p a && q a) = (q' a && p' a)) :
    (l.filter q).filter p = (l.filter p').filter q' := by
  rw [List.filter_filter, List.filter_filter]
  exact List.filter_congr h

/-- The source's filter order (plot.rs lines 117-155): name-exclusion
filter first, merge the survivors into full spans, then the
minimum-duration filter on windows and full spans. -/
def pipelineA (spans : List OwnedSpanInfo) (config : PlotConfig) :
    List OwnedSpanInfo × List (Nat × OwnedSpanInfo) :=
  durationFilter config.min_length (nameFilter config.remove spans)
    (fullSpans (nameFilter config.remove spans))

/-- The name-exclusion filter applied to a full-span map. -/
def nameFilterFS (remove : Option (List String))
    (fs : List (Nat × OwnedSpanInfo)) : List (Nat × OwnedSpanInfo) :=
  match remove with
  | some r => fs.filter (fun p => !r.contains p.2.name)
  | none => fs

/-- Modelled from the spec: the reverse filter order of the commutativity
claim ("applying the name-exclusion filter then the duration filter yields
the same surviving set as the reverse order").  The minimum-duration
filter runs first, over the full spans merged from the unfiltered windows;
the name-exclusion filter then drops excluded windows and full spans. -/
def pipelineB (spans : List OwnedSpanInfo) (config : PlotConfig) :
    List OwnedSpanInfo × List (Nat × OwnedSpanInfo) :=
  (nameFilter config.remove
      (durationFilter config.min_length spans (fullSpans spans)).1,
   nameFilterFS config.remove
      (durationFilter config.min_length spans (fullSpans spans)).2)

/-- Identity 1 carries two differently named windows: a short `"a"` window
and a late `"b"` window. -/
def c9Demo : List OwnedSpanInfo :=
  [⟨1, "a", 0, 10, none, true, none⟩, ⟨1, "b", 90, 100, none, true, none⟩]

/-- Exclude `"a"` and drop full spans shorter than 50. -/
def c9Config : PlotConfig :=
  { defaultPlotConfig with min_length := some 50, remove := some ["a"] }

/-- C9 counterexample: for an input where one identity carries two names,
the two filter orders disagree (names-first leaves nothing, durations-first
keeps the `"b"` window). -/
theorem c9_filter_orders_differ :
    pipelineA c9Demo c9Config ≠ pipelineB c9Demo c9Config := by decide

/-- C9 (amended): provided all windows of an identity share one name — as
every record set produced by the recorder does — applying the
name-exclusion filter and then the minimum-duration filter yields exactly
the same surviving windows and full spans as the reverse order. -/
theorem c9_filters_commute (spans : List OwnedSpanInfo)
    (config : PlotConfig) (hcons : NameConsistent spans) :
    pipelineA spans config = pipelineB spans config := by
  cases hr : config.remove with
  | none =>
      simp [pipelineA, pipelineB, nameFilter, nameFilterFS, hr]
  | some r =>
      have hnodup0 : ((fullSpans spans).map Prod.fst).Nodup :=
        foldl_mergeStep_keys_nodup spans [] (by simp)
      have hfs1 : fullSpans (spans.filter (fun w => !r.contains w.name)) =
          (fullSpans spans).filter (fun p => !r.contains p.2.name) :=
        fullSpans_nameFilter_comm (fun n => !r.contains n) spans hcons
      have hnodup1 : (((fullSpans spans).filter
          (fun p => !r.contains p.2.name)).map Prod.fst).Nodup :=
        List.Nodup.sublist ((List.filter_sublist _).map _) hnodup0
      have hkeyiff : ∀ (g : Nat × OwnedSpanInfo → Bool) (k : Nat)
          (v : OwnedSpanInfo), alookup k (fullSpans spans) = some v →
          (!r.contains v.name) = true →
          ((k ∈ (((fullSpans spans).filter
              (fun p => !r.contains p.2.name)).filter g).map Prod.fst) ↔
            k ∈ ((fullSpans spans).filter g).map Prod.fst) := by
        intro g k v hv hPf
        rw [mem_map_fst_filter_iff hnodup1, mem_map_fst_filter_iff hnodup0]
        have hlf1 : alookup k ((fullSpans spans).filter
            (fun p => !r.contains p.2.name)) = some v := by
          rw [alookup_filter_nodup hnodup0, hv]
          have hPf2 : v.name ∉ r := by simpa using hPf
          simp [hPf2]
        constructor
        · rintro ⟨v', hv', hg⟩
          rw [hlf1] at hv'
          injection hv' with h
          subst h
          exact ⟨v, hv, hg⟩
        · rintro ⟨v', hv', hg⟩
          rw [hv] at hv'
          injection hv' with h
          subst h
          exact ⟨v, hlf1, hg⟩
      have hname : ∀ w ∈ spans, ∀ v, alookup w.id (fullSpans spans) =
          some v → v.name = w.name := by
        intro w hw v hv
        rcases foldl_mergeStep_entry_witness spans [] (w.id, v)
            (mem_of_alookup_eq_some hv) with h | h
        · obtain ⟨w', hw', hwid, hwn⟩ := h
          exact hwn.trans (hcons w' hw' w hw hwid)
        · obtain ⟨q, hq, _⟩ := h
          simp at hq
      cases hml : config.min_length with
      | none =>
          simp only [pipelineA, pipelineB, durationFilter, nameFilter,
            nameFilterFS, hr, hml]
          exact Prod.ext rfl hfs1
      | some ml =>
          simp only [pipelineA, pipelineB, durationFilter, nameFilter,
            nameFilterFS, hr, hml]
          rw [hfs1]
          refine Prod.ext ?_ ?_
          · refine filter_filter_swap spans ?_
            intro w hw
            cases hq : (!r.contains w.name) with
            | false => simp [hq]
            | true =>
                simp only [hq, Bool.and_true, Bool.true_and]
                obtain ⟨v, hv⟩ :=
                  Option.isSome_iff_exists.mp (alookup_fullSpans_isSome hw)
                have hvn := hname w hw v hv
                have hPf : (!r.contains v.name) = true := by
                  rw [hvn]; exact hq
                exact contains_congr w.id (hkeyiff _ w.id v hv hPf)
          · refine filter_filter_swap (fullSpans spans) ?_
            intro p hp
            cases hPf : (!r.contains p.2.name) with
            | false => simp
            | true =>
                simp only [hPf, Bool.and_true, Bool.true_and]
                have hv : alookup p.1 (fullSpans spans) = some p.2 :=
                  alookup_eq_some_of_mem_nodup hnodup0 hp
                exact contains_congr p.1 (hkeyiff _ p.1 p.2 hv hPf)

/-- A name-consistent input on which both filters act. -/
def c9Wit : List OwnedSpanInfo :=
  [⟨1, "a", 0, 1, none, true, none⟩, ⟨2, "b", 0, 100, none, false, none⟩]

theorem c9_filters_commute_witness :
    pipelineA c9Wit c9Config = pipelineB c9Wit c9Config :=
  c9_filters_commute c9Wit c9Config (by unfold NameConsistent; decide)

theorem getD_set_self : ∀ (l : List Nat) (i a : Nat), i < l.length →
    (l.set i a).getD i 0 = a := by
  intro l
  induction l with
  | nil => intro i a h; simp at h
  | cons e rest ih =>
      intro i a h
      cases i with
      | zero => rfl
      | succ j =>
          show (rest.set j a).getD j 0 = a
          exact ih j a (by simpa using h)

theorem getD_set_ne : ∀ (l : List Nat) (i j a : Nat), i ≠ j →
    (l.set i a).getD j 0 = l.getD j 0 := by
  intro l
  induction l with
  | nil => intro i j a _; rfl
  | cons e rest ih =>
      intro i j a hij
      cases i with
      | zero =>
          cases j with
          | zero => exact absurd rfl hij
          | succ j2 => rfl
      | succ i2 =>
          cases j with
          | zero => rfl
          | succ j2 =>
              show (rest.set i2 a).getD j2 0 = rest.getD j2 0
              exact ih i2 j2 a (fun h => hij (by rw [h]))

theorem getD_append_left : ∀ (l : List Nat) (e k : Nat), k < l.length →
    (l ++ [e]).getD k 0 = l.getD k 0 := by
  intro l
  induction l with
  | nil => intro e k h; simp at h
  | cons x rest ih =>
      intro e k h
      cases k with
      | zero => rfl
      | succ k2 =>
          show (rest ++ [e]).getD k2 0 = rest.getD k2 0
          exact ih e k2 (by simpa using h)

theorem getD_append_len : ∀ (l : List Nat) (e : Nat),
    (l ++ [e]).getD l.length 0 = e := by
  intro l
  induction l with
  | nil => intro e; rfl
  | cons x rest ih => intro e; exact ih e

/-- The index the lane scan returns points below the lane count, at a lane
whose recorded end is strictly before the span's start. -/
theorem findLane_some_lt {start : Nat} :
    ∀ {lanes : List Nat} {i : Nat}, findLane start lanes = some i →
      i < lanes.length ∧ lanes.getD i 0 < start := by
  intro lanes
  induction lanes with
  | nil => intro i h; simp [findLane] at h
  | cons e rest ih =>
      intro i h
      unfold findLane at h
      by_cases he : start > e
      · rw [if_pos he] at h
        injection h with h
        subst h
        exact ⟨Nat.succ_pos _, he⟩
      · rw [if_neg he] at h
        cases hf : findLane start rest with
        | none => rw [hf] at h; simp at h
        | some j =>
            rw [hf] at h
            simp only [Option.map_some'] at h
            injection h with h
            subst h
            obtain ⟨hl, hg⟩ := ih hf
            exact ⟨Nat.succ_lt_succ hl, hg⟩

/-- Every processed span has a lane index below its name's lane count. -/
def HasLane (st : LaneState) (done : List OwnedSpanInfo) : Prop :=
  ∀ p ∈ done, ∃ k, alookup p.id st.span_lanes = some k ∧
    k < ((alookup p.name st.lanes_end).getD []).length

/-- Two processed spans of one name on one lane are separated in time, the
earlier-processed one ending strictly before the later one starts. -/
def LaneSeparated (st : LaneState) (done : List OwnedSpanInfo) : Prop :=
  done.Pairwise (fun p q => p.name = q.name →
    ∀ k, alookup p.id st.span_lanes = some k →
      alookup q.id st.span_lanes = some k → p.«end» < q.start)

/-- Each processed span's end either is its lane's currently recorded end,
or lies strictly before every unprocessed span's start. -/
def EndsCurrent (st : LaneState) (done todo : List OwnedSpanInfo) : Prop :=
  ∀ p ∈ done, ∀ k, alookup p.id st.span_lanes = some k →
    p.«end» = ((alookup p.name st.lanes_end).getD []).getD k 0 ∨
      ∀ x ∈ todo, p.«end» < x.start

/-- Invariant preservation of the multi-lane assignment loop: processing
start-sorted spans with distinct ids keeps every span on a recorded lane
and keeps same-name same-lane spans separated in time. -/
theorem laneLoop_inv :
    ∀ (todo done : List OwnedSpanInfo) (st : LaneState),
      ((done ++ todo).map (fun s => s.id)).Nodup →
      (done ++ todo).Pairwise (fun a b => a.start ≤ b.start) →
      HasLane st done → LaneSeparated st done →
      EndsCurrent st done todo →
      HasLane (todo.foldl (assignLane true) st) (done ++ todo) ∧
        LaneSeparated (todo.foldl (assignLane true) st) (done ++ todo) := by
  intro todo
  induction todo with
  | nil =>
      intro done st _ _ hHL hLS _
      simpa using ⟨hHL, hLS⟩
  | cons s rest ih =>
      intro done st hnd hsort hHL hLS hEC
      have hndsplit := hnd
      rw [List.map_append, List.nodup_append] at hndsplit
      obtain ⟨_, _, hdisj⟩ := hndsplit
      have hsne : ∀ p ∈ done, p.id ≠ s.id := by
        intro p hp he
        exact hdisj (List.mem_map.mpr ⟨p, hp, rfl⟩)
          (List.mem_map.mpr ⟨s, List.mem_cons_self _ _, he.symm⟩)
      have hsortSR : (s :: rest).Pairwise (fun a b => a.start ≤ b.start) :=
        List.Pairwise.sublist (List.sublist_append_right done _) hsort
      have hsstart : ∀ x ∈ rest, s.start ≤ x.start :=
        fun x hx => (List.pairwise_cons.mp hsortSR).1 x hx
      obtain ⟨idx, newL, hsl, hle, hidxlt, hrec, hLlen, hkeep, hcross⟩ :
          ∃ (idx : Nat) (newL : List Nat),
            (assignLane true st s).span_lanes =
              ainsert s.id idx st.span_lanes ∧
            (assignLane true st s).lanes_end =
              ainsert s.name newL st.lanes_end ∧
            idx < newL.length ∧
            newL.getD idx 0 = s.«end» ∧
            ((alookup s.name st.lanes_end).getD []).length ≤ newL.length ∧
            (∀ k, k < ((alookup s.name st.lanes_end).getD []).length →
              k ≠ idx → newL.getD k 0 =
                ((alookup s.name st.lanes_end).getD []).getD k 0) ∧
            (∀ p ∈ done, p.name = s.name → ∀ k,
              alookup p.id st.span_lanes = some k → k = idx →
              p.«end» < s.start) := by
        cases hf : findLane s.start ((alookup s.name st.lanes_end).getD [])
        with
        | some i =>
            obtain ⟨hil, hig⟩ := findLane_some_lt hf
            refine ⟨i, ((alookup s.name st.lanes_end).getD []).set i
              s.«end», ?_, ?_, ?_, ?_, ?_, ?_, ?_⟩
            · simp [assignLane, hf]
            · simp [assignLane, hf]
            · simpa [List.length_set] using hil
            · exact getD_set_self _ i _ hil
            · simp [List.length_set]
            · intro k _ hki
              exact getD_set_ne _ i k _ (fun h => hki h.symm)
            · intro p hp hpn k hk hki
              rcases hEC p hp k hk with hA | hB
              · rw [hpn, hki] at hA
                rw [hA]
                exact hig
              · exact hB s (List.mem_cons_self _ _)
        | none =>
            refine ⟨((alookup s.name st.lanes_end).getD []).length,
              (alookup s.name st.lanes_end).getD [] ++ [s.«end»],
              ?_, ?_, ?_, ?_, ?_, ?_, ?_⟩
            · simp [assignLane, hf]
            · simp [assignLane, hf]
            · simp
            · exact getD_append_len _ _
            · simp
            · intro k hk hki
              exact getD_append_left _ _ k hk
            · intro p hp hpn k hk hki
              obtain ⟨k2, hk2, hk2lt⟩ := hHL p hp
              rw [hk] at hk2
              injection hk2 with hk2
              rw [hpn] at hk2lt
              rw [← hk2, hki] at hk2lt
              exact absurd hk2lt (lt_irrefl _)
      have hplself :
          alookup s.id (assignLane true st s).span_lanes = some idx := by
        rw [hsl]
        exact alookup_ainsert_self _ _ _
      have hplother : ∀ i, i ≠ s.id →
          alookup i (assignLane true st s).span_lanes =
            alookup i st.span_lanes := by
        intro i hi
        rw [hsl]
        exact alookup_ainsert_ne _ _ hi
      have hlename :
          (alookup s.name (assignLane true st s).lanes_end).getD [] =
            newL := by
        rw [hle, alookup_ainsert_self]
        rfl
      have hleother : ∀ n, n ≠ s.name →
          alookup n (assignLane true st s).lanes_end =
            alookup n st.lanes_end := by
        intro n hn
        rw [hle]
        exact alookup_ainsert_ne _ _ hn
      have inv1 : HasLane (assignLane true st s) (done ++ [s]) := by
        intro p hp
        rcases List.mem_append.mp hp with hp | hp
        · obtain ⟨k, hk, hklt⟩ := hHL p hp
          refine ⟨k, by rw [hplother p.id (hsne p hp)]; exact hk, ?_⟩
          by_cases hn : p.name = s.name
          · rw [hn, hlename]
            rw [hn] at hklt
            exact lt_of_lt_of_le hklt hLlen
          · rw [hleother p.name hn]
            exact hklt
        · simp only [List.mem_singleton] at hp
          subst hp
          refine ⟨idx, hplself, ?_⟩
          rw [hlename]
          exact hidxlt
      have inv2 : LaneSeparated (assignLane true st s) (done ++ [s]) := by
        refine List.pairwise_append.mpr
          ⟨?_, List.pairwise_singleton _ _, ?_⟩
        · refine hLS.imp_of_mem ?_
          intro p q hp hq hold hn k h1 h2
          rw [hplother p.id (hsne p hp)] at h1
          rw [hplother q.id (hsne q hq)] at h2
          exact hold hn k h1 h2
        · intro p hp b hb
          simp only [List.mem_singleton] at hb
          subst hb
          intro hn k h1 h2
          rw [hplother p.id (hsne p hp)] at h1
          rw [hplself] at h2
          injection h2 with h2
          exact hcross p hp hn k h1 h2.symm
      have inv3 : EndsCurrent (assignLane true st s) (done ++ [s]) rest :=
        by
        intro p hp k hk
        rcases List.mem_append.mp hp with hp | hp
        · rw [hplother p.id (hsne p hp)] at hk
          rcases hEC p hp k hk with hA | hB
          · by_cases hn : p.name = s.name
            · by_cases hki : k = idx
              · right
                intro x hx
                exact lt_of_lt_of_le (hcross p hp hn k hk hki)
                  (hsstart x hx)
              · left
                rw [hn, hlename]
                rw [hn] at hA
                obtain ⟨k2, hk2, hk2lt⟩ := hHL p hp
                rw [hk] at hk2
                injection hk2 with hk2
                rw [hn] at hk2lt
                rw [← hk2] at hk2lt
                rw [hkeep k hk2lt hki]
                exact hA
            · left
              rw [hleother p.name hn]
              exact hA
          · right
            intro x hx
            exact hB x (List.mem_cons_of_mem _ hx)
        · simp only [List.mem_singleton] at hp
          subst hp
          rw [hplself] at hk
          injection hk with hk
          left
          rw [hlename, ← hk]
          exact hrec.symm
      have hassoc : done ++ s :: rest = (done ++ [s]) ++ rest :=
        List.append_cons done s rest
      rw [hassoc] at hnd hsort
      rw [hassoc]
      exact ih (done ++ [s]) (assignLane true st s) hnd hsort inv1 inv2
        inv3

/-- Three overlapping full spans named `"fetch"`: `[0,5)`, `[3,8)`,
`[6,9)`. -/
def c2Demo : List OwnedSpanInfo :=
  [⟨101, "fetch", 0, 5, none, true, none⟩,
   ⟨102, "fetch", 3, 8, none, true, none⟩,
   ⟨103, "fetch", 6, 9, none, true, none⟩]

/-- C2: over start-sorted full spans with distinct ids, the multi-lane
greedy assignment puts every span on a lane below its name's lane count,
no two spans of one name sharing a lane have overlapping `[start, end)`
intervals, the lane count of a name is at least the number of its spans
alive at any instant, and the spans `[0,5)`, `[3,8)`, `[6,9)` of one name
receive lanes 0, 1, 0. -/
theorem c2_lane_packing (fss : List OwnedSpanInfo)
    (hsort : fss.Pairwise (fun a b => a.start ≤ b.start))
    (hnd : (fss.map (fun s => s.id)).Nodup) :
    (∀ p ∈ fss, ∃ k,
      alookup p.id (laneAssignment true fss).span_lanes = some k ∧
      k < ((alookup p.name
        (laneAssignment true fss).lanes_end).getD []).length) ∧
    fss.Pairwise (fun p q => p.name = q.name →
      ∀ k, alookup p.id (laneAssignment true fss).span_lanes = some k →
        alookup q.id (laneAssignment true fss).span_lanes = some k →
        ¬(p.start < q.«end» ∧ q.start < p.«end»)) ∧
    (∀ (n : String) (t : Nat),
      (fss.filter (fun p => p.name == n && decide (p.start ≤ t) &&
        decide (t < p.«end»))).length ≤
      ((alookup n (laneAssignment true fss).lanes_end).getD []).length) ∧
    (alookup 101 (laneAssignment true c2Demo).span_lanes = some 0 ∧
     alookup 102 (laneAssignment true c2Demo).span_lanes = some 1 ∧
     alookup 103 (laneAssignment true c2Demo).span_lanes = some 0) := by
  obtain ⟨hHL, hLS⟩ := laneLoop_inv fss [] ⟨[], []⟩ hnd hsort
    (by intro p hp; simp at hp) List.Pairwise.nil
    (by intro p hp k hk; simp at hp)
  have hHL2 : HasLane (laneAssignment true fss) fss := hHL
  have hLS2 : LaneSeparated (laneAssignment true fss) fss := hLS
  refine ⟨hHL2, ?_, ?_, by decide⟩
  · refine hLS2.imp ?_
    intro p q h hn k h1 h2 ho
    exact lt_irrefl _ (lt_trans (h hn k h1 h2) ho.2)
  · intro n t
    have hsub : (fss.filter (fun p => p.name == n && decide (p.start ≤ t)
        && decide (t < p.«end»))).Sublist fss := List.filter_sublist _
    have hprops : ∀ p ∈ fss.filter (fun p => p.name == n &&
        decide (p.start ≤ t) && decide (t < p.«end»)),
        p ∈ fss ∧ p.name = n ∧ p.start ≤ t ∧ t < p.«end» := by
      intro p hp
      obtain ⟨hm, hpred⟩ := List.mem_filter.mp hp
      simp only [Bool.and_eq_true, beq_iff_eq, decide_eq_true_eq] at hpred
      exact ⟨hm, hpred.1.1, hpred.1.2, hpred.2⟩
    have hPl : (fss.filter (fun p => p.name == n && decide (p.start ≤ t)
        && decide (t < p.«end»))).Pairwise (fun p q =>
        (alookup p.id (laneAssignment true fss).span_lanes).getD 0 ≠
        (alookup q.id (laneAssignment true fss).span_lanes).getD 0) := by
      refine (List.Pairwise.sublist hsub hLS2).imp_of_mem ?_
      intro p q hp hq hrel heq
      obtain ⟨hpm, hpn, hpt, htp⟩ := hprops p hp
      obtain ⟨hqm, hqn, hqt, htq⟩ := hprops q hq
      obtain ⟨kp, hkp, _⟩ := hHL2 p hpm
      obtain ⟨kq, hkq, _⟩ := hHL2 q hqm
      rw [hkp, hkq] at heq
      simp only [Option.getD_some] at heq
      subst heq
      have hsep := hrel (hpn.trans hqn.symm) kp hkp hkq
      exact lt_irrefl _
        (lt_trans hsep (lt_of_le_of_lt hqt htp))
    have hnodupmap : ((fss.filter (fun p => p.name == n &&
        decide (p.start ≤ t) && decide (t < p.«end»))).map (fun p =>
        (alookup p.id (laneAssignment true fss).span_lanes).getD 0)).Nodup
        := List.Pairwise.map _ (fun a b h => h) hPl
    have hbound : ∀ x ∈ (fss.filter (fun p => p.name == n &&
        decide (p.start ≤ t) && decide (t < p.«end»))).map (fun p =>
        (alookup p.id (laneAssignment true fss).span_lanes).getD 0),
        x < ((alookup n
          (laneAssignment true fss).lanes_end).getD []).length := by
      intro x hx
      obtain ⟨p, hp, hpx⟩ := List.mem_map.mp hx
      obtain ⟨hpm, hpn, _, _⟩ := hprops p hp
      obtain ⟨kp, hkp, hkplt⟩ := hHL2 p hpm
      rw [← hpx, hkp]
      simpa [hpn] using hkplt
    have h1 := List.toFinset_card_of_nodup hnodupmap
    have h2 : ((fss.filter (fun p => p.name == n && decide (p.start ≤ t)
        && decide (t < p.«end»))).map (fun p =>
        (alookup p.id (laneAssignment true fss).span_lanes).getD
          0)).toFinset ⊆
        Finset.range ((alookup n
          (laneAssignment true fss).lanes_end).getD []).length := by
      intro x hx
      rw [Finset.mem_range]
      exact hbound x (List.mem_toFinset.mp hx)
    calc (fss.filter (fun p => p.name == n && decide (p.start ≤ t) &&
            decide (t < p.«end»))).length
        = ((fss.filter (fun p => p.name == n && decide (p.start ≤ t) &&
            decide (t < p.«end»))).map (fun p =>
            (alookup p.id
              (laneAssignment true fss).span_lanes).getD 0)).length :=
          (List.length_map _ _).symm
      _ = ((fss.filter (fun p => p.name == n && decide (p.start ≤ t) &&
            decide (t < p.«end»))).map (fun p =>
            (alookup p.id
              (laneAssignment true fss).span_lanes).getD
              0)).toFinset.card := h1.symm
      _ ≤ (Finset.range ((alookup n
            (laneAssignment true fss).lanes_end).getD []).length).card :=
          Finset.card_le_card h2
      _ = ((alookup n
            (laneAssignment true fss).lanes_end).getD []).length :=
          Finset.card_range _

/-- Witness for C2 at the three-span `"fetch"` input. -/
theorem c2_lane_packing_witness :
    (∀ p ∈ c2Demo, ∃ k,
      alookup p.id (laneAssignment true c2Demo).span_lanes = some k ∧
      k < ((alookup p.name
        (laneAssignment true c2Demo).lanes_end).getD []).length) ∧
    c2Demo.Pairwise (fun p q => p.name = q.name →
      ∀ k, alookup p.id (laneAssignment true c2Demo).span_lanes = some k →
        alookup q.id (laneAssignment true c2Demo).span_lanes = some k →
        ¬(p.start < q.«end» ∧ q.start < p.«end»)) ∧
    (∀ (n : String) (t : Nat),
      (c2Demo.filter (fun p => p.name == n && decide (p.start ≤ t) &&
        decide (t < p.«end»))).length ≤
      ((alookup n (laneAssignment true c2Demo).lanes_end).getD []).length)
      ∧
    (alookup 101 (laneAssignment true c2Demo).span_lanes = some 0 ∧
     alookup 102 (laneAssignment true c2Demo).span_lanes = some 1 ∧
     alookup 103 (laneAssignment true c2Demo).span_lanes = some 0) :=
  c2_lane_packing c2Demo (by decide) (by decide)

theorem isSome_alookup_ainsert {α β : Type} [DecidableEq α] {n k : α}
    (v : β) {m : List (α × β)} (h : (alookup n m).isSome) :
    (alookup n (ainsert k v m)).isSome := by
  by_cases hn : n = k
  · subst hn
    simp [alookup_ainsert_self]
  · rw [alookup_ainsert_ne _ _ hn]
    exact h

/-- Whatever branch runs, one lane-assignment step inserts an entry for
the span's name into `lanes_end` and one for its id into `span_lanes`. -/
theorem assignLane_shape (b : Bool) (st : LaneState) (s : OwnedSpanInfo) :
    ∃ (L : List Nat) (k : Nat),
      (assignLane b st s).lanes_end = ainsert s.name L st.lanes_end ∧
      (assignLane b st s).span_lanes = ainsert s.id k st.span_lanes := by
  cases b with
  | false =>
      refine ⟨((alookup s.name st.lanes_end).getD [s.«end»]).set 0 s.«end»,
        0, ?_, ?_⟩
      · simp [assignLane]
      · simp [assignLane]
  | true =>
      cases hf : findLane s.start ((alookup s.name st.lanes_end).getD [])
      with
      | some i =>
          refine ⟨((alookup s.name st.lanes_end).getD []).set i s.«end»,
            i, ?_, ?_⟩
          · simp [assignLane, hf]
          · simp [assignLane, hf]
      | none =>
          refine ⟨(alookup s.name st.lanes_end).getD [] ++ [s.«end»],
            ((alookup s.name st.lanes_end).getD []).length, ?_, ?_⟩
          · simp [assignLane, hf]
          · simp [assignLane, hf]

theorem assignLane_lanes_end_preserves {st : LaneState} {n : String}
    (b : Bool) (s : OwnedSpanInfo) (h : (alookup n st.lanes_end).isSome) :
    (alookup n (assignLane b st s).lanes_end).isSome := by
  obtain ⟨L, k, hL, _⟩ := assignLane_shape b st s
  rw [hL]
  exact isSome_alookup_ainsert _ h

theorem assignLane_lanes_end_self (b : Bool) (st : LaneState)
    (s : OwnedSpanInfo) :
    (alookup s.name (assignLane b st s).lanes_end).isSome := by
  obtain ⟨L, k, hL, _⟩ := assignLane_shape b st s
  rw [hL]
  simp [alookup_ainsert_self]

theorem assignLane_span_lanes_preserves {st : LaneState} {i : Nat}
    (b : Bool) (s : OwnedSpanInfo) (h : (alookup i st.span_lanes).isSome) :
    (alookup i (assignLane b st s).span_lanes).isSome := by
  obtain ⟨L, k, _, hK⟩ := assignLane_shape b st s
  rw [hK]
  exact isSome_alookup_ainsert _ h

theorem assignLane_span_lanes_self (b : Bool) (st : LaneState)
    (s : OwnedSpanInfo) :
    (alookup s.id (assignLane b st s).span_lanes).isSome := by
  obtain ⟨L, k, _, hK⟩ := assignLane_shape b st s
  rw [hK]
  simp [alookup_ainsert_self]

theorem laneLoop_lanes_end_preserves (b : Bool) :
    ∀ (l : List OwnedSpanInfo) (st : LaneState) (n : String),
      (alookup n st.lanes_end).isSome →
      (alookup n (l.foldl (assignLane b) st).lanes_end).isSome := by
  intro l
  induction l with
  | nil => intro st n h; exact h
  | cons s rest ih =>
      intro st n h
      exact ih (assignLane b st s) n
        (assignLane_lanes_end_preserves b s h)

theorem laneLoop_lanes_end_mem (b : Bool) :
    ∀ (l : List OwnedSpanInfo) (st : LaneState) (x : OwnedSpanInfo),
      x ∈ l →
      (alookup x.name (l.foldl (assignLane b) st).lanes_end).isSome := by
  intro l
  induction l with
  | nil => intro st x hx; simp at hx
  | cons s rest ih =>
      intro st x hx
      rcases List.mem_cons.mp hx with hx | hx
      · subst hx
        exact laneLoop_lanes_end_preserves b rest _ _
          (assignLane_lanes_end_self b st x)
      · exact ih (assignLane b st s) x hx

theorem laneLoop_span_lanes_preserves (b : Bool) :
    ∀ (l : List OwnedSpanInfo) (st : LaneState) (i : Nat),
      (alookup i st.span_lanes).isSome →
      (alookup i (l.foldl (assignLane b) st).span_lanes).isSome := by
  intro l
  induction l with
  | nil => intro st i h; exact h
  | cons s rest ih =>
      intro st i h
      exact ih (assignLane b st s) i
        (assignLane_span_lanes_preserves b s h)

theorem laneLoop_span_lanes_mem (b : Bool) :
    ∀ (l : List OwnedSpanInfo) (st : LaneState) (x : OwnedSpanInfo),
      x ∈ l →
      (alookup x.id (l.foldl (assignLane b) st).span_lanes).isSome := by
  intro l
  induction l with
  | nil => intro st x hx; simp at hx
  | cons s rest ih =>
      intro st x hx
      rcases List.mem_cons.mp hx with hx | hx
      · subst hx
        exact laneLoop_span_lanes_preserves b rest _ _
          (assignLane_span_lanes_self b st x)
      · exact ih (assignLane b st s) x hx

theorem earliestStep_preserves {m : List (String × Nat)} {n : String}
    (s : OwnedSpanInfo) (h : (alookup n m).isSome) :
    (alookup n (earliestStep m s)).isSome := by
  unfold earliestStep
  cases hl : alookup s.name m with
  | some cur =>
      show (alookup n
        (if cur > s.start then ainsert s.name s.start m else m)).isSome
      by_cases hc : cur > s.start
      · rw [if_pos hc]
        exact isSome_alookup_ainsert _ h
      · rw [if_neg hc]
        exact h
  | none =>
      show (alookup n (ainsert s.name s.start m)).isSome
      exact isSome_alookup_ainsert _ h

theorem earliestStep_self (m : List (String × Nat)) (s : OwnedSpanInfo) :
    (alookup s.name (earliestStep m s)).isSome := by
  unfold earliestStep
  cases hl : alookup s.name m with
  | some cur =>
      show (alookup s.name
        (if cur > s.start then ainsert s.name s.start m else m)).isSome
      by_cases hc : cur > s.start
      · rw [if_pos hc]
        simp [alookup_ainsert_self]
      · rw [if_neg hc]
        simp [hl]
  | none =>
      show (alookup s.name (ainsert s.name s.start m)).isSome
      simp [alookup_ainsert_self]

theorem earliestStarts_fold_preserves :
    ∀ (l : List OwnedSpanInfo) (m : List (String × Nat)) (n : String),
      (alookup n m).isSome →
      (alookup n (l.foldl earliestStep m)).isSome := by
  intro l
  induction l with
  | nil => intro m n h; exact h
  | cons s rest ih =>
      intro m n h
      exact ih (earliestStep m s) n (earliestStep_preserves s h)

theorem earliestStarts_fold_mem :
    ∀ (l : List OwnedSpanInfo) (m : List (String × Nat))
      (x : OwnedSpanInfo), x ∈ l →
      (alookup x.name (l.foldl earliestStep m)).isSome := by
  intro l
  induction l with
  | nil => intro m x hx; simp at hx
  | cons s rest ih =>
      intro m x hx
      rcases List.mem_cons.mp hx with hx | hx
      · subst hx
        exact earliestStarts_fold_preserves rest _ _
          (earliestStep_self m x)
      · exact ih (earliestStep m s) x hx

theorem earliestStep_ne {m : List (String × Nat)} {n : String}
    (s : OwnedSpanInfo) (hn : n ≠ s.name) :
    alookup n (earliestStep m s) = alookup n m := by
  unfold earliestStep
  cases hl : alookup s.name m with
  | some cur =>
      show alookup n
        (if cur > s.start then ainsert s.name s.start m else m) = _
      by_cases hc : cur > s.start
      · rw [if_pos hc]
        exact alookup_ainsert_ne _ _ hn
      · rw [if_neg hc]
  | none =>
      show alookup n (ainsert s.name s.start m) = _
      exact alookup_ainsert_ne _ _ hn

theorem earliestStarts_keys_witness :
    ∀ (l : List OwnedSpanInfo) (m : List (String × Nat)) (n : String),
      (alookup n (l.foldl earliestStep m)).isSome →
      (alookup n m).isSome ∨ ∃ w ∈ l, w.name = n := by
  intro l
  induction l with
  | nil => intro m n h; exact Or.inl h
  | cons s rest ih =>
      intro m n h
      rcases ih (earliestStep m s) n h with h | h
      · by_cases hn : n = s.name
        · exact Or.inr ⟨s, List.mem_cons_self _ _, hn.symm⟩
        · rw [earliestStep_ne s hn] at h
          exact Or.inl h
      · obtain ⟨w, hw, hwn⟩ := h
        exact Or.inr ⟨w, List.mem_cons_of_mem _ hw, hwn⟩

theorem nameOffsets_keys (es : List (String × Nat)) :
    (nameOffsets es).map Prod.fst = es.map Prod.fst := by
  unfold nameOffsets
  rw [List.map_map]
  have h1 : (Prod.fst ∘ fun p : Nat × (String × Nat) =>
      (p.2.1, p.1 + 1)) = Prod.fst ∘ Prod.snd := rfl
  rw [h1, ← List.map_map, List.enum_map_snd]

theorem mapM_option_isSome {α β : Type} (f : α → Option β) :
    ∀ (l : List α), (∀ x ∈ l, (f x).isSome) → (l.mapM f).isSome := by
  intro l
  rw [← List.mapM'_eq_mapM]
  induction l with
  | nil => intro _; rfl
  | cons x xs ih =>
      intro h
      obtain ⟨y, hy⟩ :=
        Option.isSome_iff_exists.mp (h x (List.mem_cons_self _ _))
      obtain ⟨ys, hys⟩ := Option.isSome_iff_exists.mp
        (ih (fun z hz => h z (List.mem_cons_of_mem _ hz)))
      simp [List.mapM', hy, hys]

theorem extraLanes_go (lanes_end : List (String × List Nat)) :
    ∀ (es : List (String × Nat)) (acc : List (String × Nat) × Nat),
      (∀ p ∈ es, (alookup p.1 lanes_end).isSome) →
      ∃ res, es.foldlM
          (fun acc p =>
            match alookup p.1 lanes_end with
            | some lanes =>
                some (ainsert p.1 acc.2 acc.1, acc.2 + (lanes.length - 1))
            | none => none)
          acc = some res ∧
        (∀ k, (alookup k acc.1).isSome → (alookup k res.1).isSome) ∧
        (∀ p ∈ es, (alookup p.1 res.1).isSome) := by
  intro es
  induction es with
  | nil =>
      intro acc _
      exact ⟨acc, rfl, fun k h => h, by simp⟩
  | cons p es' ih =>
      intro acc h
      obtain ⟨lanes, hl⟩ :=
        Option.isSome_iff_exists.mp (h p (List.mem_cons_self _ _))
      obtain ⟨res, hres, hpres, hmem⟩ :=
        ih (ainsert p.1 acc.2 acc.1, acc.2 + (lanes.length - 1))
          (fun q hq => h q (List.mem_cons_of_mem _ hq))
      refine ⟨res, ?_, ?_, ?_⟩
      · rw [List.foldlM_cons, hl]
        simpa using hres
      · intro k hk
        exact hpres k (isSome_alookup_ainsert _ hk)
      · intro q hq
        rcases List.mem_cons.mp hq with hq | hq
        · subst hq
          exact hpres q.1 (by simp [alookup_ainsert_self])
        · exact hmem q hq

/-- All hash lookups of the geometry stage succeed when every surviving
window's identity has a surviving full span of the same name, and every
surviving full span's name is a surviving window's name. -/
theorem plotCore_isSome (spans' : List OwnedSpanInfo)
    (fs' : List (Nat × OwnedSpanInfo)) (endT : Nat) (config : PlotConfig)
    (layout : PlotLayout)
    (hwin : ∀ w ∈ spans', ∃ v, (w.id, v) ∈ fs' ∧ v.name = w.name)
    (hfs : ∀ p ∈ fs', ∃ w ∈ spans', p.2.name = w.name) :
    (plotCore spans' fs' endT config layout).isSome := by
  have hsortmem : ∀ v, v ∈ fs'.map Prod.snd →
      v ∈ sortByStart (fs'.map Prod.snd) := by
    intro v hv
    exact ((List.perm_insertionSort _ _).mem_iff).mpr hv
  have hlanes : ∀ w ∈ spans', (alookup w.name
      (laneAssignment config.multi_lane
        (sortByStart (fs'.map Prod.snd))).lanes_end).isSome := by
    intro w hw
    obtain ⟨v, hv, hvn⟩ := hwin w hw
    have hvmem : v ∈ fs'.map Prod.snd :=
      List.mem_map.mpr ⟨(w.id, v), hv, rfl⟩
    have h := laneLoop_lanes_end_mem config.multi_lane
      (sortByStart (fs'.map Prod.snd)) ⟨[], []⟩ v (hsortmem v hvmem)
    rw [hvn] at h
    exact h
  have hekey : ∀ (n : String),
      (alookup n (earliestStarts spans')).isSome →
      ∃ w ∈ spans', w.name = n := by
    intro n h
    rcases earliestStarts_keys_witness spans' [] n h with h | h
    · simp [alookup] at h
    · exact h
  have hall : ∀ p ∈ sortNamesByStart (earliestStarts spans'),
      (alookup p.1 (laneAssignment config.multi_lane
        (sortByStart (fs'.map Prod.snd))).lanes_end).isSome := by
    intro p hp
    have hpe : p ∈ earliestStarts spans' :=
      ((List.perm_insertionSort _ _).mem_iff).mp hp
    have hks : (alookup p.1 (earliestStarts spans')).isSome :=
      alookup_isSome_of_mem_keys (List.mem_map.mpr ⟨p, hpe, rfl⟩)
    obtain ⟨w, hw, hwn⟩ := hekey p.1 hks
    have h := hlanes w hw
    rw [hwn] at h
    exact h
  obtain ⟨res, hres, _, hcov⟩ := extraLanes_go
    (laneAssignment config.multi_lane
      (sortByStart (fs'.map Prod.snd))).lanes_end
    (sortNamesByStart (earliestStarts spans')) ([], 0) hall
  have hcum : extraLanesCumulative (sortNamesByStart (earliestStarts
      spans')) (laneAssignment config.multi_lane
      (sortByStart (fs'.map Prod.snd))).lanes_end = some res := hres
  have hcumname : ∀ w ∈ spans', (alookup w.name res.1).isSome := by
    intro w hw
    have h1 := earliestStarts_fold_mem spans' [] w hw
    have h2 := mem_keys_of_alookup_isSome h1
    obtain ⟨p, hp, hpk⟩ := List.mem_map.mp h2
    have hpes : p ∈ sortNamesByStart (earliestStarts spans') :=
      ((List.perm_insertionSort _ _).mem_iff).mpr hp
    have h := hcov p hpes
    rw [hpk] at h
    exact h
  have hnoff : ∀ w ∈ spans', (alookup w.name
      (nameOffsets (sortNamesByStart (earliestStarts spans')))).isSome :=
    by
    intro w hw
    apply alookup_isSome_of_mem_keys
    rw [nameOffsets_keys]
    have h1 := earliestStarts_fold_mem spans' [] w hw
    have h2 := mem_keys_of_alookup_isSome h1
    obtain ⟨p, hp, hpk⟩ := List.mem_map.mp h2
    exact List.mem_map.mpr
      ⟨p, ((List.perm_insertionSort _ _).mem_iff).mpr hp, hpk⟩
  have hleg : (legendTexts
      (nameOffsets (sortNamesByStart (earliestStarts spans'))) res.1
      layout (layout.bar_height / 2 + layout.multi_lane_padding)).isSome
      := by
    unfold legendTexts
    apply mapM_option_isSome
    intro q hq
    have hqk : q.1 ∈ (nameOffsets (sortNamesByStart (earliestStarts
        spans'))).map Prod.fst := List.mem_map.mpr ⟨q, hq, rfl⟩
    rw [nameOffsets_keys] at hqk
    obtain ⟨p, hp, hpk⟩ := List.mem_map.mp hqk
    have h := hcov p hp
    rw [hpk] at h
    obtain ⟨extra, hx⟩ := Option.isSome_iff_exists.mp h
    rw [hx]
    rfl
  obtain ⟨legend, hlegend⟩ := Option.isSome_iff_exists.mp hleg
  have hsp : (spanRects spans' endT config layout
      (nameOffsets (sortNamesByStart (earliestStarts spans'))) res.1
      (layout.bar_height / 2 + layout.multi_lane_padding)).isSome := by
    unfold spanRects
    apply mapM_option_isSome
    intro w hw
    obtain ⟨o, ho⟩ := Option.isSome_iff_exists.mp (hnoff w hw)
    obtain ⟨e, he⟩ := Option.isSome_iff_exists.mp (hcumname w hw)
    rw [ho, he]
    rfl
  obtain ⟨topRects, htop⟩ := Option.isSome_iff_exists.mp hsp
  have hfr : (fullSpanRects (fs'.map Prod.snd) endT config layout
      (nameOffsets (sortNamesByStart (earliestStarts spans'))) res.1
      (laneAssignment config.multi_lane
        (sortByStart (fs'.map Prod.snd))).span_lanes
      (layout.bar_height / 2 + layout.multi_lane_padding)).isSome := by
    unfold fullSpanRects
    apply mapM_option_isSome
    intro v hv
    obtain ⟨p, hp, hpv⟩ := List.mem_map.mp hv
    obtain ⟨w, hw, hwn⟩ := hfs p hp
    have hvn : v.name = w.name := by rw [← hpv]; exact hwn
    have h1 := hnoff w hw
    rw [← hvn] at h1
    have h2 := hcumname w hw
    rw [← hvn] at h2
    have h3 : (alookup v.id (laneAssignment config.multi_lane
        (sortByStart (fs'.map Prod.snd))).span_lanes).isSome :=
      laneLoop_span_lanes_mem config.multi_lane
        (sortByStart (fs'.map Prod.snd)) ⟨[], []⟩ v (hsortmem v hv)
    obtain ⟨o, ho⟩ := Option.isSome_iff_exists.mp h1
    obtain ⟨e, he⟩ := Option.isSome_iff_exists.mp h2
    obtain ⟨lane, hlane⟩ := Option.isSome_iff_exists.mp h3
    rw [ho, he, hlane]
    rfl
  obtain ⟨bottom, hbot⟩ := Option.isSome_iff_exists.mp hfr
  simp only [plotCore, hcum, hlegend, htop, hbot]
  rfl

theorem nameConsistent_nameFilter (r : Option (List String))
    {spans : List OwnedSpanInfo} (h : NameConsistent spans) :
    NameConsistent (nameFilter r spans) := by
  cases r with
  | none => exact h
  | some rr =>
      intro w1 h1 w2 h2 hid
      exact h w1 (List.mem_filter.mp h1).1 w2 (List.mem_filter.mp h2).1 hid

/-- Identity 1 carries windows under two names: the legend then knows
`"b"` but the lane table only knows `"a"` (the full span inherits the
first window's name). -/
def c10Demo : List OwnedSpanInfo :=
  [⟨1, "a", 0, 1, none, true, none⟩, ⟨1, "b", 2, 3, none, true, none⟩]

/-- C10 counterexample: with two names on one identity the plot panics at
the `lanes_end[name]` index (plot.rs line 216) — the model returns
`none`. -/
theorem c10_mixed_names_panic :
    plot c10Demo 5 defaultPlotConfig defaultPlotLayout = none := by decide

/-- C10 (amended): when all windows of an identity share one name — as in
every recorder-produced record set — every internal table lookup of plot
succeeds: the legend-offset, cumulative-extra-lane, per-name lane and
lane-assignment maps are mutually consistent, and plot returns a
document. -/
theorem c10_lookups_total (spans : List OwnedSpanInfo) (endT : Nat)
    (config : PlotConfig) (layout : PlotLayout)
    (hcons : NameConsistent spans) :
    (plot spans endT config layout).isSome := by
  have hcons1 : NameConsistent (nameFilter config.remove spans) :=
    nameConsistent_nameFilter _ hcons
  have hwin0 : ∀ w ∈ nameFilter config.remove spans, ∃ v,
      (w.id, v) ∈ fullSpans (nameFilter config.remove spans) ∧
      v.name = w.name := by
    intro w hw
    obtain ⟨v, hv⟩ :=
      Option.isSome_iff_exists.mp (alookup_fullSpans_isSome hw)
    refine ⟨v, mem_of_alookup_eq_some hv, ?_⟩
    rcases foldl_mergeStep_entry_witness _ [] (w.id, v)
        (mem_of_alookup_eq_some hv) with h | h
    · obtain ⟨w2, hw2, hw2id, hw2n⟩ := h
      exact hw2n.trans (hcons1 w2 hw2 w hw hw2id)
    · obtain ⟨q, hq, _⟩ := h
      simp at hq
  have hfs0 : ∀ p ∈ fullSpans (nameFilter config.remove spans),
      ∃ w ∈ nameFilter config.remove spans,
        w.id = p.1 ∧ p.2.name = w.name := by
    intro p hp
    rcases foldl_mergeStep_entry_witness _ [] p hp with h | h
    · exact h
    · obtain ⟨q, hq, _⟩ := h
      simp at hq
  cases hml : config.min_length with
  | none =>
      simp only [plot, durationFilter, hml]
      refine plotCore_isSome _ _ _ _ _ hwin0 ?_
      intro p hp
      obtain ⟨w, hw, _, hwn⟩ := hfs0 p hp
      exact ⟨w, hw, hwn⟩
  | some ml =>
      simp only [plot, durationFilter, hml]
      refine plotCore_isSome _ _ _ _ _ ?_ ?_
      · intro w hw
        obtain ⟨hw1, hwp⟩ := List.mem_filter.mp hw
        obtain ⟨v, hv, hvn⟩ := hwin0 w hw1
        exact ⟨v, List.mem_filter.mpr ⟨hv, hwp⟩, hvn⟩
      · intro p hp
        obtain ⟨hp1, hpp⟩ := List.mem_filter.mp hp
        obtain ⟨w, hw, hwid, hwn⟩ := hfs0 p hp1
        refine ⟨w, List.mem_filter.mpr ⟨hw, ?_⟩, hwn⟩
        rw [hwid]
        exact hpp

/-- A name-consistent two-identity input. -/
def c10Wit : List OwnedSpanInfo :=
  [⟨1, "a", 0, 4, none, true, none⟩, ⟨2, "b", 2, 3, none, false, none⟩]

theorem c10_lookups_total_witness :
    (plot c10Wit 5 defaultPlotConfig defaultPlotLayout).isSome :=
  c10_lookups_total c10Wit 5 defaultPlotConfig defaultPlotLayout
    (by unfold NameConsistent; decide)
